import Mathlib

/-!
Verification of the interface-and-type-descriptor lowering core of the
tinygo compiler (compiler/interface.go) against its specification, together
with the runtime reflect field decoder (src/reflect/type.go, rawField).

The Go source is shallowly embedded: `go/types` types become the inductive
`GoType` (named types refer to their underlying type through an explicit
environment `Env`, mirroring the `types.Named`/`Underlying()` indirection);
the LLVM module becomes an association list of named globals and functions;
`getTypeCode` and friends become state-passing functions over that module;
Go strings become `List Char`.
-/

namespace TinyGo

/-- Str models a Go string as its character (byte) sequence. -/
abbrev Str := List Char

/-- str converts a Lean string literal to the model representation. -/
def str (s : String) : Str := s.data

/-- The valid basic kinds of go/types (types.Bool .. types.UnsafePointer)
that can reach the descriptor synthesizer. -/
inductive BasicKind where
  | bool | int | int8 | int16 | int32 | int64
  | uint | uint8 | uint16 | uint32 | uint64 | uintptr
  | float32 | float64 | complex64 | complex128
  | string | unsafePointer
deriving DecidableEq, Repr

/-- Channel direction (types.SendRecv / SendOnly / RecvOnly). -/
inductive ChanDir where
  | sendRecv | sendOnly | recvOnly
deriving DecidableEq, Repr

mutual
/-- A go/types type, as seen by the descriptor synthesizer.

`named n` stands for a `*types.Named`; its fully qualified name `n`
(`t.String()`) is its identity and its underlying type is looked up in the
environment, mirroring how `go/types` keeps the underlying type behind the
named object.  Signatures carry parameter and result types only (parameter
names do not take part in go/types identity and are not used by any of the
embedded functions). -/
inductive GoType where
  | basic (b : BasicKind)
  | named (name : Str)
  | chan (dir : ChanDir) (elem : GoType)
  | slice (elem : GoType)
  | pointer (elem : GoType)
  | array (len : Nat) (elem : GoType)
  | mapT (key : GoType) (elem : GoType)
  | structT (fields : List StructFieldT)
  | interfaceT (methods : List IMethodT)
  | signature (params : List GoType) (results : List GoType)

/-- One struct field: `Embedded()`, `Name()`, `Type()` and `Tag(i)`. -/
inductive StructFieldT where
  | mk (embedded : Bool) (name : Str) (typ : GoType) (tag : Str)

/-- One interface method: `Name()`, `Pkg().Path()` and its
`*types.Signature` (a `GoType.signature` node). -/
inductive IMethodT where
  | mk (name : Str) (pkgPath : Str) (sig : GoType)
end

/-- Field accessor for the embedded flag. -/
def StructFieldT.embedded : StructFieldT → Bool
  | .mk e _ _ _ => e

/-- Field accessor for the field name. -/
def StructFieldT.name : StructFieldT → Str
  | .mk _ n _ _ => n

/-- Field accessor for the field type. -/
def StructFieldT.typ : StructFieldT → GoType
  | .mk _ _ t _ => t

/-- Field accessor for the field tag. -/
def StructFieldT.tag : StructFieldT → Str
  | .mk _ _ _ tg => tg

/-- Method accessor for the method name. -/
def IMethodT.name : IMethodT → Str
  | .mk n _ _ => n

/-- Method accessor for the declaring package path. -/
def IMethodT.pkgPath : IMethodT → Str
  | .mk _ p _ => p

/-- Method accessor for the method's signature. -/
def IMethodT.sig : IMethodT → GoType
  | .mk _ _ sg => sg

/-- Whether the type is a `*types.Named`. -/
def GoType.isNamed : GoType → Bool
  | .named _ => true
  | _ => false

/-- Whether the type is a `*types.Interface`. -/
def GoType.isInterface : GoType → Bool
  | .interfaceT _ => true
  | _ => false

/-- The `basicTypes` table of compiler/interface.go: type kind codes for
basic types, matching the `Kind` constants in src/reflect/type.go. -/
def basicTypes : BasicKind → Nat
  | .bool => 1
  | .int => 2
  | .int8 => 3
  | .int16 => 4
  | .int32 => 5
  | .int64 => 6
  | .uint => 7
  | .uint8 => 8
  | .uint16 => 9
  | .uint32 => 10
  | .uint64 => 11
  | .uintptr => 12
  | .float32 => 13
  | .float64 => 14
  | .complex64 => 15
  | .complex128 => 16
  | .string => 17
  | .unsafePointer => 18

/-- The `basicTypeNames` table of compiler/interface.go. -/
def basicTypeNames : BasicKind → Str
  | .bool => str "bool"
  | .int => str "int"
  | .int8 => str "int8"
  | .int16 => str "int16"
  | .int32 => str "int32"
  | .int64 => str "int64"
  | .uint => str "uint"
  | .uint8 => str "uint8"
  | .uint16 => str "uint16"
  | .uint32 => str "uint32"
  | .uint64 => str "uint64"
  | .uintptr => str "uintptr"
  | .float32 => str "float32"
  | .float64 => str "float64"
  | .complex64 => str "complex64"
  | .complex128 => str "complex128"
  | .string => str "string"
  | .unsafePointer => str "unsafe.Pointer"

/-- natToChars models `strconv.FormatInt(n, 10)` for the non-negative array
lengths that reach it: standard decimal notation, most significant digit
first. -/
def natToChars (n : Nat) : Str :=
  if h : n < 10 then [Char.ofNat (48 + n)]
  else natToChars (n / 10) ++ [Char.ofNat (48 + n % 10)]
decreasing_by exact Nat.div_lt_self (by omega) (by omega)

/-- isExported models `token.IsExported`: the first character is an upper
case letter. -/
def isExported : Str → Bool
  | [] => false
  | c :: _ => c.isUpper

mutual
/-- getTypeCodeName of compiler/interface.go: the canonical TypeKey string
of a type.  The list-joining loops (`strings.Join(..., ",")` over a mapped
list) are fused into the `join*` helpers below, and the signature case is
split into `signatureKey` so the interface case can reuse it. -/
def getTypeCodeName : GoType → Str
  | .named n => str "named:" ++ n
  | .array n e => str "array:" ++ natToChars n ++ ':' :: getTypeCodeName e
  | .basic b => str "basic:" ++ basicTypeNames b
  | .chan _ e => str "chan:" ++ getTypeCodeName e
  | .interfaceT ms => str "interface:" ++ '\x7b' :: joinMethodElems ms ++ ['\x7d']
  | .mapT k v =>
      str "map:" ++ '\x7b' :: getTypeCodeName k ++ ',' :: getTypeCodeName v ++ ['\x7d']
  | .pointer e => str "pointer:" ++ getTypeCodeName e
  | .signature ps rs =>
      str "func:" ++ '\x7b' :: joinKeys ps ++ '\x7d' :: '\x7b' :: joinKeys rs ++ ['\x7d']
  | .slice e => str "slice:" ++ getTypeCodeName e
  | .structT fs => str "struct:" ++ '\x7b' :: joinFieldElems fs ++ ['\x7d']

/-- joinKeys fuses `strings.Join(params.map getTypeCodeName, ",")`. -/
def joinKeys : List GoType → Str
  | [] => []
  | [t] => getTypeCodeName t
  | t :: ts => getTypeCodeName t ++ ',' :: joinKeys ts

/-- joinFieldElems fuses `strings.Join(elems, ",")` over the struct's field
elements. -/
def joinFieldElems : List StructFieldT → Str
  | [] => []
  | [f] => fieldElem f
  | f :: fs => fieldElem f ++ ',' :: joinFieldElems fs

/-- fieldElem is one struct-field element of the struct TypeKey:
`[#]<name>:<key(type)>` followed, when the tag is non-empty, by the tag in
backquotes. -/
def fieldElem : StructFieldT → Str
  | .mk e n t tg =>
      (if e then ['#'] else []) ++ n ++ ':' :: getTypeCodeName t ++
        (if tg = [] then [] else '\x60' :: tg ++ ['\x60'])

/-- joinMethodElems fuses `strings.Join(methods, ",")` over the interface's
method elements. -/
def joinMethodElems : List IMethodT → Str
  | [] => []
  | [m] => methodElem m
  | m :: ms => methodElem m ++ ',' :: joinMethodElems ms

/-- methodElem is one interface-method element of the interface TypeKey:
the label (bare name when exported, `<pkg-path>.<name>` otherwise) followed
by `:` and the key of the method's signature
(`name + ":" + getTypeCodeName(t.Method(i).Type())`). -/
def methodElem : IMethodT → Str
  | .mk n p sg =>
      (if isExported n then n else p ++ '.' :: n) ++ ':' :: getTypeCodeName sg
end

/-- One entry of a concrete type's method set, as the compiler sees it
through the SSA program: the method's name, the package path of its
receiver's package, its `*types.Signature`, the link name of the concrete
LLVM function implementing it, and whether its receiver expands to a
single pointer word (in which case `getInterfaceInvokeWrapper` needs no
wrapper). -/
structure GoMethod where
  name : Str
  pkgPath : Str
  sig : GoType
  fnName : Str
  ptrRecv : Bool

/-- The ambient compilation inputs that compiler/interface.go consumes but
does not define: the `Underlying()` mapping of named types, the
`MethodSets.MethodSet` of the SSA program, the platform pointer size
(`targetData.TypeAllocSize(i8ptrType)`), and two external Go library
functions (`strconv.Quote` and `(types.Type).String()`), modelled
opaquely. -/
structure Env where
  underlyingOf : Str → GoType
  methodSet : GoType → List GoMethod
  ptrSize : Nat
  quote : Str → Str
  typeString : GoType → Str

/-- underlyingT models `typ.Underlying()`: a named type resolves to its
underlying type through the environment, every other type is its own
underlying type. -/
def underlyingT (env : Env) : GoType → GoType
  | .named n => env.underlyingOf n
  | t => t

/-- kindOf is the switch body of `getTypeKind`: the reflect.Kind code of an
already-resolved underlying type.  The `default: panic("unknown type")`
branch (an underlying type that is itself named, which go/types never
produces) is modelled as code 0 (`Invalid`). -/
def kindOf : GoType → Nat
  | .basic b => basicTypes b
  | .chan _ _ => 19
  | .interfaceT _ => 20
  | .pointer _ => 21
  | .slice _ => 22
  | .array _ _ => 23
  | .signature _ _ => 24
  | .mapT _ _ => 25
  | .structT _ => 26
  | .named _ => 0

/-- getTypeKind of compiler/interface.go: the reflect.Kind code of a type,
computed by switching on its underlying type. -/
def getTypeKind (env : Env) (t : GoType) : Nat :=
  kindOf (underlyingT env t)

/-- metabyte is the `metabyte` computation of `getTypeCode`:
`getTypeKind(typ)`, with bit 5 ORed in when the type is a `*types.Named`. -/
def metabyte (env : Env) (typ : GoType) : Nat :=
  let mb := getTypeKind env typ
  match typ with
  | .named _ => mb ||| (1 <<< 5)
  | _ => mb

/-- Every kind code is below 32, so it fits the low five bits of the meta
byte. -/
theorem kindOf_lt (t : GoType) : kindOf t < 32 := by
  cases t with
  | basic b => cases b <;> decide
  | named n => norm_num [kindOf]
  | chan d e => norm_num [kindOf]
  | slice e => norm_num [kindOf]
  | pointer e => norm_num [kindOf]
  | array n e => norm_num [kindOf]
  | mapT k v => norm_num [kindOf]
  | structT fs => norm_num [kindOf]
  | interfaceT ms => norm_num [kindOf]
  | signature ps rs => norm_num [kindOf]

/-- Bit arithmetic for the meta byte, checked for all five-bit kind
codes. -/
theorem metaBits :
    ∀ k < 32, (k ||| 32) &&& 31 = k ∧ (k ||| 32) &&& 32 = 32 ∧
      k &&& 31 = k ∧ k &&& 32 = 0 := by decide

/-- The shift `1 << 5` written in the named-flag line of `getTypeCode`. -/
theorem one_shl_five : (1 <<< 5 : Nat) = 32 := rfl

/-- C1: the meta byte placed in a descriptor is the kind code of the type's
underlying kind, bitwise-ORed with 0x20 iff the type is named: `meta & 31`
recovers the kind code and `meta & 32` is set iff the type is named. -/
theorem metabyte_kind_and_named_flag (env : Env) (typ : GoType) :
    metabyte env typ &&& 31 = getTypeKind env typ ∧
      metabyte env typ &&& 32 = (if typ.isNamed then 32 else 0) := by
  have h := metaBits (getTypeKind env typ) (kindOf_lt (underlyingT env typ))
  cases typ with
  | named n =>
      simpa only [metabyte, GoType.isNamed, if_pos, one_shl_five] using ⟨h.1, h.2.1⟩
  | basic b => exact ⟨h.2.2.1, h.2.2.2⟩
  | chan d e => exact ⟨h.2.2.1, h.2.2.2⟩
  | slice e => exact ⟨h.2.2.1, h.2.2.2⟩
  | pointer e => exact ⟨h.2.2.1, h.2.2.2⟩
  | array n e => exact ⟨h.2.2.1, h.2.2.2⟩
  | mapT k v => exact ⟨h.2.2.1, h.2.2.2⟩
  | structT fs => exact ⟨h.2.2.1, h.2.2.2⟩
  | interfaceT ms => exact ⟨h.2.2.1, h.2.2.2⟩
  | signature ps rs => exact ⟨h.2.2.1, h.2.2.2⟩

/-- The parameter types of a `*types.Signature` node (`sig.Params()`). -/
def sigParams : GoType → List GoType
  | .signature ps _ => ps
  | _ => []

/-- The result types of a `*types.Signature` node (`sig.Results()`). -/
def sigResults : GoType → List GoType
  | .signature _ rs => rs
  | _ => []

mutual
/-- typestring of compiler/interface.go: the stable human-readable type
string used for interface matching.  As in `getTypeCodeName`, the
`strings.Join` loops are fused into the `join*TS` helpers, and the
signature case inlines the body of the `signature` helper. -/
def typestringT (env : Env) : GoType → Str
  | .array n e => '[' :: (natToChars n ++ ']' :: typestringT env e)
  | .basic b => basicTypeNames b
  | .chan d e =>
      match d with
      | .sendRecv => str "chan (" ++ typestringT env e ++ [')']
      | .sendOnly => str "chan<- (" ++ typestringT env e ++ [')']
      | .recvOnly => str "<-chan (" ++ typestringT env e ++ [')']
  | .interfaceT ms => str "interface" ++ '\x7b' :: joinMethodTS env ms ++ ['\x7d']
  | .mapT k v => str "map[" ++ typestringT env k ++ ']' :: typestringT env v
  | .named n => n
  | .pointer e => '*' :: typestringT env e
  | .signature ps rs => str "func" ++ sigParamsStr env ps ++ sigResultsStr env rs
  | .slice e => str "[]" ++ typestringT env e
  | .structT fs => str "struct" ++ '\x7b' :: joinFieldTS env fs ++ ['\x7d']
termination_by t => (sizeOf t, 0)

/-- signatureStr is the `signature` helper of compiler/interface.go: the
readable version of a function signature, without the function name.  A
non-signature argument models the impossible `.(*types.Signature)` cast
as the empty string. -/
def signatureStr (env : Env) (s : GoType) : Str :=
  match s with
  | .signature ps rs => sigParamsStr env ps ++ sigResultsStr env rs
  | _ => []
termination_by (sizeOf s, 0)

/-- sigParamsStr is the parameter part of `signature`: `()` when there
are no parameters, else the comma-joined parameter type strings in
parentheses. -/
def sigParamsStr (env : Env) (ps : List GoType) : Str :=
  match ps with
  | [] => str "()"
  | p :: pr => '(' :: joinCommaTS env (p :: pr) ++ [')']
termination_by (sizeOf ps, 1)

/-- sigResultsStr is the result part of `signature`: empty for no
results, ` <type>` for one, ` (<types>)` for several. -/
def sigResultsStr (env : Env) (rs : List GoType) : Str :=
  match rs with
  | [] => []
  | [r] => ' ' :: typestringT env r
  | r1 :: r2 :: rest => str " (" ++ joinCommaTS env (r1 :: r2 :: rest) ++ [')']
termination_by (sizeOf rs, 1)

/-- joinCommaTS fuses the `", "`-joined type-string loops of
`signature`. -/
def joinCommaTS (env : Env) : List GoType → Str
  | [] => []
  | [t] => typestringT env t
  | t :: ts => typestringT env t ++ ',' :: ' ' :: joinCommaTS env ts
termination_by ts => (sizeOf ts, 0)

/-- joinMethodTS fuses `strings.Join(methods, ";")` of the interface case
of `typestring`. -/
def joinMethodTS (env : Env) : List IMethodT → Str
  | [] => []
  | [m] => methodTS env m
  | m :: ms => methodTS env m ++ ';' :: joinMethodTS env ms
termination_by ms => (sizeOf ms, 0)

/-- methodTS is one interface-method entry of `typestring`:
`method.Name() + signature(method.Type().(*types.Signature))`. -/
def methodTS (env : Env) (m : IMethodT) : Str :=
  match m with
  | .mk n _ sg => n ++ signatureStr env sg
termination_by (sizeOf m, 0)

/-- joinFieldTS fuses `strings.Join(fields, ";")` of the struct case of
`typestring`. -/
def joinFieldTS (env : Env) : List StructFieldT → Str
  | [] => []
  | [f] => fieldTS env f
  | f :: fs => fieldTS env f ++ ';' :: joinFieldTS env fs
termination_by fs => (sizeOf fs, 0)

/-- fieldTS is one struct-field entry of `typestring`:
`field.Name() + " " + typestring(field.Type())`, followed by the
`strconv.Quote`d tag when one is present. -/
def fieldTS (env : Env) (f : StructFieldT) : Str :=
  match f with
  | .mk _ n t tg =>
      n ++ ' ' :: typestringT env t ++ (if tg = [] then [] else ' ' :: env.quote tg)
termination_by (sizeOf f, 0)
end

/-- methodSignature of compiler/interface.go:
`method.Name() + signature(method.Type().(*types.Signature))`. -/
def methodSignature (env : Env) (name : Str) (sg : GoType) : Str :=
  name ++ signatureStr env sg

/-- getMethodSignatureName of compiler/interface.go: the global name of a
method's signature token, `reflect/methods.<sig>` for exported methods and
`<recv-pkg-path>.$methods.<sig>` for unexported ones. -/
def getMethodSignatureName (env : Env) (name pkgPath : Str) (sg : GoType) : Str :=
  if isExported name then str "reflect/methods." ++ methodSignature env name sg
  else pkgPath ++ str ".$methods." ++ methodSignature env name sg

/-- joinStrs models `strings.Join`. -/
def joinStrs (sep : Str) : List Str → Str
  | [] => []
  | [x] => x
  | x :: xs => x ++ sep ++ joinStrs sep xs

/-- getMethodsString of compiler/interface.go: the value of the
`tinygo-methods` string attribute, the `"; "`-joined signature-token
names of the interface's methods. -/
def getMethodsString (env : Env) (itf : List IMethodT) : Str :=
  joinStrs (str "; ")
    (itf.map fun m => getMethodSignatureName env m.name m.pkgPath m.sig)

/-- An LLVM constant, as far as the descriptor synthesizer builds them:
integer constants, `ConstGEP`-derived addresses of named globals (index 0
is the head of the global), constant structs, constant arrays,
`ConstString` byte strings, and `ConstBitCast`s. -/
inductive CVal where
  | intC (bits : Nat) (val : Nat)
  | addrC (name : Str) (idx : Nat)
  | structC (fields : List CVal)
  | arrayC (elems : List CVal)
  | bytesC (data : List Nat)
  | bitcastC (v : CVal)

/-- Linkage of a global value. -/
inductive Linkage where
  | external
  | internal
  | linkOnceODR
deriving DecidableEq, Repr

/-- One LLVM global variable of the module: its initializer (none while
only declared) and the properties the synthesizer sets. -/
structure Global where
  init : Option CVal := none
  linkage : Linkage := .external
  isConstant : Bool := false
  unnamedAddr : Bool := false
  align : Option Nat := none

/-- The shape of a declared function, at the level of detail the
interface lowerer fixes it: the `i1 (i8*)` shape of `$typeassert`
placeholders, the raw invoke-thunk shape (non-receiver parameter types
with the appended `$typecode` opaque pointer, plus result types), and the
invoke-wrapper shape (opaque receiver plus the method's parameter and
result types). -/
inductive FnSig where
  | assertSig
  | invokeSig (params : List GoType) (results : List GoType)
  | wrapperSig (params : List GoType) (results : List GoType)

/-- One LLVM function of the module: its shape, whether it has a body,
its string attributes, and its linkage properties. -/
structure FuncDecl where
  sig : FnSig
  defined : Bool := false
  attrs : List (Str × Str) := []
  linkage : Linkage := .external
  unnamedAddr : Bool := false

/-- The LLVM module: named globals and named functions.  `AddGlobal` /
`AddFunction` prepend; `NamedGlobal` / `NamedFunction` look up the
name. -/
structure Module where
  globals : List (Str × Global) := []
  funcs : List (Str × FuncDecl) := []

/-- NamedGlobal: the global with the given name, if any. -/
def Module.findGlobal (m : Module) (n : Str) : Option Global :=
  (m.globals.find? fun p => p.1 == n).map (·.2)

/-- AddGlobal. -/
def Module.addGlobal (m : Module) (n : Str) (g : Global) : Module :=
  { m with globals := (n, g) :: m.globals }

/-- How many globals of the module carry the given name. -/
def Module.countGlobal (m : Module) (n : Str) : Nat :=
  m.globals.countP fun p => p.1 == n

/-- Mutating an already-added global (`SetInitializer` and friends):
replace the first global with the given name. -/
def replaceFirstG (l : List (Str × Global)) (n : Str) (f : Global → Global) :
    List (Str × Global) :=
  match l with
  | [] => []
  | (k, g) :: rest =>
      if k == n then (k, f g) :: rest else (k, g) :: replaceFirstG rest n f

/-- Module update of one named global. -/
def Module.updateGlobal (m : Module) (n : Str) (f : Global → Global) : Module :=
  { m with globals := replaceFirstG m.globals n f }

/-- NamedFunction: the function with the given name, if any. -/
def Module.findFunc (m : Module) (n : Str) : Option FuncDecl :=
  (m.funcs.find? fun p => p.1 == n).map (·.2)

/-- AddFunction. -/
def Module.addFunc (m : Module) (n : Str) (f : FuncDecl) : Module :=
  { m with funcs := (n, f) :: m.funcs }

/-- getMethodSignature of compiler/interface.go: look up or create the
signature-token global (a constant link-once i8 global with value 0 and
alignment 1) and return it. -/
def getMethodSignature (env : Env) (name pkgPath : Str) (sg : GoType)
    (mod : Module) : Str × Module :=
  match mod.findGlobal (getMethodSignatureName env name pkgPath sg) with
  | some _ => (getMethodSignatureName env name pkgPath sg, mod)
  | none =>
      (getMethodSignatureName env name pkgPath sg,
        mod.addGlobal (getMethodSignatureName env name pkgPath sg)
          { init := some (.intC 8 0), linkage := .linkOnceODR, isConstant := true,
            unnamedAddr := false, align := some 1 })

/-- getInterfaceInvokeWrapper of compiler/interface.go, at the module
level: reuse an existing wrapper of the expected name; otherwise return
the concrete function itself when the receiver is already a single
pointer word, and else add a defined link-once unnamed-address wrapper
function.  The wrapper body (receiver unpack plus forwarding call) is not
modelled. -/
def getInterfaceInvokeWrapper (env : Env) (m : GoMethod) (mod : Module) :
    Str × Module :=
  match mod.findFunc (m.fnName ++ str "$invoke") with
  | some _ => (m.fnName ++ str "$invoke", mod)
  | none =>
      if m.ptrRecv then (m.fnName, mod)
      else
        (m.fnName ++ str "$invoke",
          mod.addFunc (m.fnName ++ str "$invoke")
            { sig := .wrapperSig (sigParams m.sig) (sigResults m.sig),
              defined := true, attrs := [],
              linkage := .linkOnceODR, unnamedAddr := true })

/-- buildMethodTables is the method loop of `getTypeMethodSet`: for each
method of the method set, obtain its signature-token global and its
invoke wrapper, collecting the two parallel name tables. -/
def buildMethodTables (env : Env) :
    List GoMethod → Module → List Str × List Str × Module
  | [], mod => ([], [], mod)
  | m :: ms, mod =>
      let p1 := getMethodSignature env m.name m.pkgPath m.sig mod
      let p2 := getInterfaceInvokeWrapper env m p1.2
      let p3 := buildMethodTables env ms p2.2
      (p1.1 :: p3.1, p2.1 :: p3.2.1, p3.2.2)

/-- getTypeMethodSet of compiler/interface.go: look up or create the
`<type.String()>$methodset` global whose initializer is
`{count, signatureTable, wrapperTable}`, marked constant, unnamed-addr
and link-once-ODR. -/
def getTypeMethodSet (env : Env) (typ : GoType) (mod : Module) : Str × Module :=
  match mod.findGlobal (env.typeString typ ++ str "$methodset") with
  | some _ => (env.typeString typ ++ str "$methodset", mod)
  | none =>
      (env.typeString typ ++ str "$methodset",
        (buildMethodTables env (env.methodSet typ) mod).2.2.addGlobal
          (env.typeString typ ++ str "$methodset")
          { init := some (.structC
              [.intC (8 * env.ptrSize) (env.methodSet typ).length,
               .arrayC ((buildMethodTables env (env.methodSet typ) mod).1.map
                 fun n => .addrC n 0),
               .structC ((buildMethodTables env (env.methodSet typ) mod).2.1.map
                 fun n => .addrC n 0)]),
            linkage := .linkOnceODR, isConstant := true,
            unnamedAddr := true, align := none })

/-- getInterfaceImplementsFunc of compiler/interface.go: look up or
declare the `<key(underlying AT)>.$typeassert` placeholder of type
`i1 (i8*)` carrying the `tinygo-methods` string attribute.  A
non-interface underlying type models the impossible
`.(*types.Interface)` cast as `none`.  (`addStandardDeclaredAttributes`
sets target attributes outside this model.) -/
def getInterfaceImplementsFunc (env : Env) (assertedType : GoType)
    (mod : Module) : Option (Str × Module) :=
  let fnName := getTypeCodeName (underlyingT env assertedType) ++ str ".$typeassert"
  match mod.findFunc fnName with
  | some _ => some (fnName, mod)
  | none =>
      match underlyingT env assertedType with
      | .interfaceT ms =>
          some (fnName, mod.addFunc fnName
            { sig := .assertSig, defined := false,
              attrs := [(str "tinygo-methods", getMethodsString env ms)],
              linkage := .external, unnamedAddr := false })
      | _ => none

/-- getInvokeFunction of compiler/interface.go: look up or declare the
`<key(underlying static interface type)>.<method>$invoke` thunk whose
parameters are the method's (non-receiver) parameters plus the appended
`$typecode` `unsafe.Pointer` parameter, carrying the `tinygo-invoke` and
`tinygo-methods` string attributes. -/
def getInvokeFunction (env : Env) (xType : GoType) (method : IMethodT)
    (mod : Module) : Option (Str × Module) :=
  let fnName := getTypeCodeName (underlyingT env xType) ++
    '.' :: (method.name ++ str "$invoke")
  match mod.findFunc fnName with
  | some _ => some (fnName, mod)
  | none =>
      match underlyingT env xType with
      | .interfaceT ms =>
          some (fnName, mod.addFunc fnName
            { sig := .invokeSig (sigParams method.sig ++ [.basic .unsafePointer])
                (sigResults method.sig),
              defined := false,
              attrs := [(str "tinygo-invoke",
                          getMethodSignatureName env method.name method.pkgPath method.sig),
                        (str "tinygo-methods", getMethodsString env ms)],
              linkage := .external, unnamedAddr := false })
      | _ => none

/-- Looking up a just-added function finds it. -/
theorem Module.findFunc_addFunc_self (m : Module) (n : Str) (f : FuncDecl) :
    (m.addFunc n f).findFunc n = some f := by
  simp [Module.findFunc, Module.addFunc, List.find?]

/-- Looking up a just-added global finds it. -/
theorem Module.findGlobal_addGlobal_self (m : Module) (n : Str) (g : Global) :
    (m.addGlobal n g).findGlobal n = some g := by
  simp [Module.findGlobal, Module.addGlobal, List.find?]

/-- C7: for a type assertion on an interface type, the compiler declares
(or reuses) a body-less function named `<key(underlying AT)>.$typeassert`
of shape `i1 (i8*)`, carrying a `tinygo-methods` string attribute whose
value is the `"; "`-joined signature-token names of the interface's
methods in the interface's method order. -/
theorem getInterfaceImplementsFunc_spec (env : Env) (assertedType : GoType)
    (mod : Module) (ms : List IMethodT)
    (hu : underlyingT env assertedType = .interfaceT ms) :
    ∃ mod',
      getInterfaceImplementsFunc env assertedType mod =
        some (getTypeCodeName (.interfaceT ms) ++ str ".$typeassert", mod') ∧
      ((mod.findFunc (getTypeCodeName (.interfaceT ms) ++ str ".$typeassert")).isSome →
        mod' = mod) ∧
      (mod.findFunc (getTypeCodeName (.interfaceT ms) ++ str ".$typeassert") = none →
        mod'.findFunc (getTypeCodeName (.interfaceT ms) ++ str ".$typeassert") =
          some { sig := .assertSig, defined := false,
                 attrs := [(str "tinygo-methods",
                   joinStrs (str "; ")
                     (ms.map fun m =>
                       getMethodSignatureName env m.name m.pkgPath m.sig))],
                 linkage := .external, unnamedAddr := false }) := by
  cases hf : mod.findFunc (getTypeCodeName (GoType.interfaceT ms) ++ str ".$typeassert") with
  | some f =>
      refine ⟨mod, ?_, fun _ => rfl, fun hc => Option.noConfusion hc⟩
      simp [getInterfaceImplementsFunc, hu, hf]
  | none =>
      refine ⟨mod.addFunc (getTypeCodeName (.interfaceT ms) ++ str ".$typeassert")
        { sig := .assertSig, defined := false,
          attrs := [(str "tinygo-methods", getMethodsString env ms)],
          linkage := .external, unnamedAddr := false }, ?_, ?_, ?_⟩
      · simp [getInterfaceImplementsFunc, hu, hf, getMethodsString]
      · intro hs; simp at hs
      · intro _; exact Module.findFunc_addFunc_self ..

/-- A small shared environment for concrete witnesses: trivial underlying
map, no method sets, 8-byte pointers, identity quoting, empty type
strings. -/
def envA : Env :=
  { underlyingOf := fun _ => .basic .bool
    methodSet := fun _ => []
    ptrSize := 8
    quote := fun t => t
    typeString := fun _ => [] }

/-- The one-method `io.Reader`-like interface used by witnesses. -/
def readerItf : List IMethodT :=
  [.mk (str "Read") (str "io")
    (.signature [.slice (.basic .uint8)] [.basic .int, .named (str "error")])]

/-- Witness for C7 at the concrete interface `readerItf` on the empty
module. -/
theorem getInterfaceImplementsFunc_spec_witness :
    underlyingT envA (.interfaceT readerItf) = .interfaceT readerItf ∧
      ∃ mod',
        getInterfaceImplementsFunc envA (.interfaceT readerItf) {} =
          some (getTypeCodeName (.interfaceT readerItf) ++ str ".$typeassert", mod') ∧
        ((Module.findFunc {} (getTypeCodeName (.interfaceT readerItf) ++ str ".$typeassert")).isSome →
          mod' = {}) ∧
        (Module.findFunc {} (getTypeCodeName (.interfaceT readerItf) ++ str ".$typeassert") = none →
          mod'.findFunc (getTypeCodeName (.interfaceT readerItf) ++ str ".$typeassert") =
            some { sig := .assertSig, defined := false,
                   attrs := [(str "tinygo-methods",
                     joinStrs (str "; ")
                       (readerItf.map fun m =>
                         getMethodSignatureName envA m.name m.pkgPath m.sig))],
                   linkage := .external, unnamedAddr := false }) :=
  ⟨rfl, getInterfaceImplementsFunc_spec envA (.interfaceT readerItf) {} readerItf rfl⟩

/-- C8: for a dynamic interface call, the compiler declares (or reuses) a
body-less invoke thunk named
`<key(underlying static type of x)>.<method>$invoke` whose parameters are
the method's non-receiver parameters followed by one appended
`unsafe.Pointer` (`$typecode`) parameter, carrying the `tinygo-invoke`
attribute (the method's signature-token name) and the `tinygo-methods`
attribute (the `"; "`-joined signature-token names of the interface's
methods). -/
theorem getInvokeFunction_spec (env : Env) (xType : GoType) (method : IMethodT)
    (mod : Module) (ms : List IMethodT)
    (hu : underlyingT env xType = .interfaceT ms) :
    ∃ mod',
      getInvokeFunction env xType method mod =
        some (getTypeCodeName (.interfaceT ms) ++ '.' :: (method.name ++ str "$invoke"),
          mod') ∧
      ((mod.findFunc
          (getTypeCodeName (.interfaceT ms) ++ '.' :: (method.name ++ str "$invoke"))).isSome →
        mod' = mod) ∧
      (mod.findFunc
          (getTypeCodeName (.interfaceT ms) ++ '.' :: (method.name ++ str "$invoke")) = none →
        mod'.findFunc
            (getTypeCodeName (.interfaceT ms) ++ '.' :: (method.name ++ str "$invoke")) =
          some { sig := .invokeSig (sigParams method.sig ++ [.basic .unsafePointer])
                   (sigResults method.sig),
                 defined := false,
                 attrs := [(str "tinygo-invoke",
                             getMethodSignatureName env method.name method.pkgPath
                               method.sig),
                           (str "tinygo-methods",
                             joinStrs (str "; ")
                               (ms.map fun m =>
                                 getMethodSignatureName env m.name m.pkgPath m.sig))],
                 linkage := .external, unnamedAddr := false }) := by
  cases hf : mod.findFunc
      (getTypeCodeName (GoType.interfaceT ms) ++ '.' :: (method.name ++ str "$invoke")) with
  | some f =>
      refine ⟨mod, ?_, fun _ => rfl, fun hc => Option.noConfusion hc⟩
      simp only [getInvokeFunction, hu]
      rw [hf]
  | none =>
      refine ⟨mod.addFunc
        (getTypeCodeName (.interfaceT ms) ++ '.' :: (method.name ++ str "$invoke"))
        { sig := .invokeSig (sigParams method.sig ++ [.basic .unsafePointer])
            (sigResults method.sig),
          defined := false,
          attrs := [(str "tinygo-invoke",
                      getMethodSignatureName env method.name method.pkgPath method.sig),
                    (str "tinygo-methods", getMethodsString env ms)],
          linkage := .external, unnamedAddr := false }, ?_, ?_, ?_⟩
      · simp only [getInvokeFunction, hu, getMethodsString]
        rw [hf]
      · intro hs; simp at hs
      · intro _; exact Module.findFunc_addFunc_self ..

/-- Witness for C8 at the concrete interface `readerItf`, its `Read`
method, and the empty module. -/
theorem getInvokeFunction_spec_witness :
    underlyingT envA (.interfaceT readerItf) = .interfaceT readerItf ∧
      ∃ mod',
        getInvokeFunction envA (.interfaceT readerItf)
            (.mk (str "Read") (str "io")
              (.signature [.slice (.basic .uint8)] [.basic .int, .named (str "error")]))
            {} =
          some (getTypeCodeName (.interfaceT readerItf) ++
            '.' :: (str "Read" ++ str "$invoke"), mod') :=
  ⟨rfl, by
    obtain ⟨mod', h1, h2, h3⟩ := getInvokeFunction_spec envA (.interfaceT readerItf)
      (.mk (str "Read") (str "io")
        (.signature [.slice (.basic .uint8)] [.basic .int, .named (str "error")]))
      {} readerItf rfl
    exact ⟨mod', h1⟩⟩

/-- The signature-token global name of a method-set entry. -/
def tokenName (env : Env) (m : GoMethod) : Str :=
  getMethodSignatureName env m.name m.pkgPath m.sig

/-- The name `getInterfaceInvokeWrapper` answers for a method when its
expected wrapper is not yet in the module: the concrete function itself
for single-pointer receivers, the `$invoke` wrapper otherwise. -/
def invokeWrapperName (m : GoMethod) : Str :=
  if m.ptrRecv then m.fnName else m.fnName ++ str "$invoke"

/-- Function lookup after adding a function. -/
theorem Module.findFunc_addFunc (m : Module) (n n' : Str) (f : FuncDecl) :
    (m.addFunc n f).findFunc n' = if n = n' then some f else m.findFunc n' := by
  by_cases h : n = n'
  · simp [Module.findFunc, Module.addFunc, List.find?, h]
  · have hb : (n == n') = false := beq_eq_false_iff_ne.2 h
    simp [Module.findFunc, Module.addFunc, List.find?, hb, h]

/-- Adding a global does not change function lookup. -/
theorem Module.findFunc_addGlobal (m : Module) (n n' : Str) (g : Global) :
    (m.addGlobal n g).findFunc n' = m.findFunc n' := rfl

/-- Adding a function does not change global lookup. -/
theorem Module.findGlobal_addFunc (m : Module) (n n' : Str) (f : FuncDecl) :
    (m.addFunc n f).findGlobal n' = m.findGlobal n' := rfl

/-- Adding a function does not change global counts. -/
theorem Module.countGlobal_addFunc (m : Module) (n n' : Str) (f : FuncDecl) :
    (m.addFunc n f).countGlobal n' = m.countGlobal n' := rfl

/-- Global counting after adding a global. -/
theorem Module.countGlobal_addGlobal (m : Module) (n n' : Str) (g : Global) :
    (m.addGlobal n g).countGlobal n' =
      m.countGlobal n' + (if n = n' then 1 else 0) := by
  by_cases h : n = n' <;> simp [Module.countGlobal, Module.addGlobal, h] <;> omega

/-- An absent global has count zero. -/
theorem Module.countGlobal_eq_zero (m : Module) (n : Str)
    (h : m.findGlobal n = none) : m.countGlobal n = 0 := by
  unfold Module.findGlobal at h
  unfold Module.countGlobal
  rcases hf : m.globals.find? fun p => p.1 == n with _ | p
  · exact List.countP_eq_zero.2 (by
      intro x hx
      exact List.find?_eq_none.1 hf x hx)
  · rw [hf] at h; cases h

/-- The module effect of `getMethodSignature`: the answered name is the
method's token name, functions are untouched, and global counts of other
names are untouched. -/
theorem getMethodSignature_effect (env : Env) (name pkgPath : Str) (sg : GoType)
    (mod : Module) :
    (getMethodSignature env name pkgPath sg mod).1 =
        getMethodSignatureName env name pkgPath sg ∧
      (getMethodSignature env name pkgPath sg mod).2.funcs = mod.funcs ∧
      ∀ N, getMethodSignatureName env name pkgPath sg ≠ N →
        (getMethodSignature env name pkgPath sg mod).2.countGlobal N =
          mod.countGlobal N := by
  rcases hg : mod.findGlobal (getMethodSignatureName env name pkgPath sg) with _ | g
  · refine ⟨by simp [getMethodSignature, hg],
      by simp [getMethodSignature, hg, Module.addGlobal], fun N hN => ?_⟩
    simp [getMethodSignature, hg, Module.countGlobal_addGlobal, hN]
  · exact ⟨by simp [getMethodSignature, hg], by simp [getMethodSignature, hg],
      fun N hN => by simp [getMethodSignature, hg]⟩

/-- The module effect of `getInterfaceInvokeWrapper` when the expected
wrapper is absent: the answered name is `invokeWrapperName`, globals are
untouched, and the only possible function addition carries the expected
wrapper name. -/
theorem getInterfaceInvokeWrapper_effect (env : Env) (m : GoMethod) (mod : Module)
    (habs : mod.findFunc (m.fnName ++ str "$invoke") = none) :
    (getInterfaceInvokeWrapper env m mod).1 = invokeWrapperName m ∧
      (getInterfaceInvokeWrapper env m mod).2.globals = mod.globals ∧
      ∀ N, m.fnName ++ str "$invoke" ≠ N →
        (getInterfaceInvokeWrapper env m mod).2.findFunc N = mod.findFunc N := by
  by_cases hp : m.ptrRecv
  · simp [getInterfaceInvokeWrapper, habs, hp, invokeWrapperName]
  · refine ⟨by simp [getInterfaceInvokeWrapper, habs, hp, invokeWrapperName],
      by simp [getInterfaceInvokeWrapper, habs, hp, Module.addFunc], fun N hN => ?_⟩
    simp [getInterfaceInvokeWrapper, habs, hp, Module.findFunc_addFunc, hN]

/-- The effect of the method loop of `getTypeMethodSet`: the signature
table is the token names of the methods in order, the wrapper table is
their wrapper names in order, and global counts of names that are no
method's token name are untouched.  Requires that no expected wrapper is
already present and that the concrete functions of distinct entries are
distinct. -/
theorem buildMethodTables_spec (env : Env) (ms : List GoMethod) (mod : Module)
    (hw : ∀ m ∈ ms, mod.findFunc (m.fnName ++ str "$invoke") = none)
    (hd : ms.Pairwise fun m1 m2 => m1.fnName ≠ m2.fnName) :
    (buildMethodTables env ms mod).1 = ms.map (tokenName env) ∧
      (buildMethodTables env ms mod).2.1 = ms.map invokeWrapperName ∧
      ∀ N, (∀ m ∈ ms, tokenName env m ≠ N) →
        (buildMethodTables env ms mod).2.2.countGlobal N = mod.countGlobal N := by
  induction ms generalizing mod with
  | nil => exact ⟨rfl, rfl, fun N _ => rfl⟩
  | cons m ms ih =>
      obtain ⟨h1a, h1b, h1c⟩ := getMethodSignature_effect env m.name m.pkgPath m.sig mod
      set mod1 := (getMethodSignature env m.name m.pkgPath m.sig mod).2 with hmod1
      have habs1 : mod1.findFunc (m.fnName ++ str "$invoke") = none := by
        unfold Module.findFunc
        rw [h1b]
        exact hw m (by simp)
      obtain ⟨h2a, h2b, h2c⟩ := getInterfaceInvokeWrapper_effect env m mod1 habs1
      set mod2 := (getInterfaceInvokeWrapper env m mod1).2 with hmod2
      have hw2 : ∀ m2 ∈ ms, mod2.findFunc (m2.fnName ++ str "$invoke") = none := by
        intro m2 hm2
        have hne : m.fnName ++ str "$invoke" ≠ m2.fnName ++ str "$invoke" := by
          intro hcontra
          exact (List.rel_of_pairwise_cons hd hm2)
            (List.append_cancel_right hcontra)
        rw [h2c _ hne]
        unfold Module.findFunc
        rw [h1b]
        exact hw m2 (by simp [hm2])
      obtain ⟨h3a, h3b, h3c⟩ := ih mod2 hw2 (List.Pairwise.of_cons hd)
      refine ⟨?_, ?_, ?_⟩
      · show (getMethodSignature env m.name m.pkgPath m.sig mod).1 :: _ = _
        simp [h1a, h3a, tokenName]
      · show (getInterfaceInvokeWrapper env m mod1).1 :: _ = _
        simp [h2a, h3b]
      · intro N hN
        have := h3c N (fun m2 hm2 => hN m2 (by simp [hm2]))
        rw [show (buildMethodTables env (m :: ms) mod).2.2 =
            (buildMethodTables env ms mod2).2.2 from rfl, this]
        have hcnt2 : mod2.countGlobal N = mod1.countGlobal N := by
          unfold Module.countGlobal
          rw [h2b]
        rw [hcnt2]
        exact h1c N (hN m (by simp))

/-- C9: for a type with a method set, `getTypeMethodSet` emits exactly
one `<type.String()>$methodset` global, whose initializer is the triple
`{count, signatureTable, wrapperTable}` — the count of methods, the
signature-token globals in method-set order, and the corresponding invoke
wrappers — and which is marked link-once-ODR, constant and
unnamed-address. -/
theorem getTypeMethodSet_spec (env : Env) (typ : GoType) (mod : Module)
    (hms : mod.findGlobal (env.typeString typ ++ str "$methodset") = none)
    (htok : ∀ m ∈ env.methodSet typ,
      tokenName env m ≠ env.typeString typ ++ str "$methodset")
    (hw : ∀ m ∈ env.methodSet typ, mod.findFunc (m.fnName ++ str "$invoke") = none)
    (hd : (env.methodSet typ).Pairwise fun m1 m2 => m1.fnName ≠ m2.fnName) :
    ∃ mod',
      getTypeMethodSet env typ mod = (env.typeString typ ++ str "$methodset", mod') ∧
      mod'.countGlobal (env.typeString typ ++ str "$methodset") = 1 ∧
      mod'.findGlobal (env.typeString typ ++ str "$methodset") =
        some { init := some (.structC
                 [.intC (8 * env.ptrSize) (env.methodSet typ).length,
                  .arrayC ((env.methodSet typ).map fun m => .addrC (tokenName env m) 0),
                  .structC ((env.methodSet typ).map fun m =>
                    .addrC (invokeWrapperName m) 0)]),
               linkage := .linkOnceODR, isConstant := true,
               unnamedAddr := true, align := none } := by
  obtain ⟨hb1, hb2, hb3⟩ := buildMethodTables_spec env (env.methodSet typ) mod hw hd
  refine ⟨(buildMethodTables env (env.methodSet typ) mod).2.2.addGlobal
      (env.typeString typ ++ str "$methodset")
      { init := some (.structC
          [.intC (8 * env.ptrSize) (env.methodSet typ).length,
           .arrayC ((buildMethodTables env (env.methodSet typ) mod).1.map
             fun n => .addrC n 0),
           .structC ((buildMethodTables env (env.methodSet typ) mod).2.1.map
             fun n => .addrC n 0)]),
        linkage := .linkOnceODR, isConstant := true,
        unnamedAddr := true, align := none }, ?_, ?_, ?_⟩
  · simp only [getTypeMethodSet, hms]
  · rw [Module.countGlobal_addGlobal, if_pos rfl,
      hb3 _ htok, Module.countGlobal_eq_zero mod _ hms]
  · rw [Module.findGlobal_addGlobal_self, hb1, hb2]
    simp [List.map_map, Function.comp]

/-- A shared concrete environment whose every type has a one-method
method set, used by the C9 witness. -/
def envB : Env :=
  { underlyingOf := fun _ => .basic .bool
    methodSet := fun _ =>
      [{ name := str "Read", pkgPath := str "io",
         sig := .signature [] [], fnName := str "main.T.Read", ptrRecv := false }]
    ptrSize := 8
    quote := fun t => t
    typeString := fun _ => str "main.T" }

/-- Witness for C9 at the one-method type `main.T` of `envB` on the
empty module. -/
theorem getTypeMethodSet_spec_witness :
    Module.findGlobal {}
        (envB.typeString (.named (str "main.T")) ++ str "$methodset") = none ∧
      ∃ mod',
        getTypeMethodSet envB (.named (str "main.T")) {} =
          (envB.typeString (.named (str "main.T")) ++ str "$methodset", mod') ∧
        mod'.countGlobal
          (envB.typeString (.named (str "main.T")) ++ str "$methodset") = 1 :=
  ⟨rfl, by
    obtain ⟨mod', h1, h2, h3⟩ := getTypeMethodSet_spec envB (.named (str "main.T")) {}
      rfl
      (by intro m hm; simp [envB] at hm; subst hm; decide)
      (by intro m hm; exact rfl)
      (by simp [envB])
    exact ⟨mod', h1, h2⟩⟩

/-- strBytes views a string as its byte sequence (the Go `string` /
`unsafe.Pointer` byte view used by the runtime decoder). -/
def strBytes (s : String) : List Nat := s.data.map Char.toNat

/-- structFieldFlags is the flags byte built by the struct branch of
`getTypeCode`: bit 0 = `field.Anonymous()`, bit 1 = tag present,
bit 2 = `token.IsExported(field.Name())`. -/
def structFieldFlags (anonymous exported : Bool) (tag : List Nat) : Nat :=
  (if anonymous then 1 else 0) ||| (if tag = [] then 0 else 2) |||
    (if exported then 4 else 0)

/-- structFieldData is the struct-field data string built by the struct
branch of `getTypeCode`: the flags byte, the field name, and — when the
tag is non-empty — a NUL separator followed by the tag.  Field name and
tag are taken as byte sequences. -/
def structFieldData (anonymous exported : Bool) (name tag : List Nat) : List Nat :=
  structFieldFlags anonymous exported tag :: name ++ (if tag = [] then [] else 0 :: tag)

/-- Bit 0 of the flags byte is the anonymous flag. -/
theorem structFieldFlags_and_one (a e : Bool) (tg : List Nat) :
    structFieldFlags a e tg &&& 1 = (if a then 1 else 0) := by
  cases a <;> cases e <;> by_cases h : tg = [] <;>
    simp [structFieldFlags, h] <;> try decide

/-- Bit 1 of the flags byte is the has-tag flag. -/
theorem structFieldFlags_and_two (a e : Bool) (tg : List Nat) :
    structFieldFlags a e tg &&& 2 = (if tg = [] then 0 else 2) := by
  cases a <;> cases e <;> by_cases h : tg = [] <;>
    simp [structFieldFlags, h] <;> try decide

/-- Bit 2 of the flags byte is the exported flag. -/
theorem structFieldFlags_and_four (a e : Bool) (tg : List Nat) :
    structFieldFlags a e tg &&& 4 = (if e then 4 else 0) := by
  cases a <;> cases e <;> by_cases h : tg = [] <;>
    simp [structFieldFlags, h] <;> try decide

/-- structFieldBlob is the initializer of the field's data global:
`ConstString(data, true)` appends a NUL terminator. -/
def structFieldBlob (anonymous exported : Bool) (name tag : List Nat) : List Nat :=
  structFieldData anonymous exported name tag ++ [0]

/-- The descriptor global name of a type:
`"reflect/types.type:" + getTypeCodeName(typ)`. -/
def descName (typ : GoType) : Str :=
  str "reflect/types.type:" ++ getTypeCodeName typ

/-- The `hasMethodSet` computation at the top of `getTypeCode`: the
method set is non-empty and the underlying type is not an interface. -/
def hasMethodSet (env : Env) (typ : GoType) : Bool :=
  ((env.methodSet typ).length != 0) && !(underlyingT env typ).isInterface

/-- The GEP offset of the address `getTypeCode` returns: past the
method-set slot when there is one, the head of the global otherwise. -/
def descOffset (env : Env) (typ : GoType) : Nat :=
  if hasMethodSet env typ then 1 else 0

/-- The tail of `getTypeCode` once the kind-specific fields are built:
prepend the meta byte, prepend the method-set pointer when the type has a
method set (creating the method set), install the initializer with
link-once-ODR linkage, constness and pointer-size alignment by mutating
the already-published global, and answer the GEP to the kind field. -/
def finishTypeCode (env : Env) (typ : GoType) (kindFields : List CVal)
    (mod2 : Module) : CVal × Module :=
  if hasMethodSet env typ then
    (.addrC (descName typ) 1,
      ((getTypeMethodSet env typ mod2).2.updateGlobal (descName typ) fun g =>
        { g with
            init := some (.structC (CVal.bitcastC
              (.addrC (getTypeMethodSet env typ mod2).1 0) ::
              CVal.intC 8 (metabyte env typ) :: kindFields))
            linkage := .linkOnceODR
            isConstant := true
            align := some env.ptrSize }))
  else
    (.addrC (descName typ) 0,
      mod2.updateGlobal (descName typ) fun g =>
        { g with
            init := some (.structC (CVal.intC 8 (metabyte env typ) :: kindFields))
            linkage := .linkOnceODR
            isConstant := true
            align := some env.ptrSize })

/-- The NUL-terminated data blob of one struct field, as the struct
branch of `getTypeCode` builds it. -/
def fieldDataBytes (f : StructFieldT) : List Nat :=
  structFieldBlob f.embedded (isExported f.name)
    (f.name.map Char.toNat) (f.tag.map Char.toNat)

mutual
/-- getTypeCode of compiler/interface.go.  A type code is the address of
a constant global describing the type, pointing at its kind field.  On a
module that already holds the descriptor the address is answered
directly; otherwise the uninitialized global is added first (so that
recursion through pointers terminates) and `buildTypeCode` builds and
installs the initializer.  The recursion carries explicit fuel; `none`
means the fuel ran out (the debug-info branch is not modelled). -/
def getTypeCode (env : Env) : Nat → GoType → Module → Option (CVal × Module)
  | 0, _, _ => none
  | fuel + 1, typ, mod =>
    match mod.findGlobal (descName typ) with
    | some _ => some (.addrC (descName typ) (descOffset env typ), mod)
    | none => buildTypeCode env fuel typ (mod.addGlobal (descName typ) {})

/-- buildTypeCode is the descriptor-creation branch of `getTypeCode`: the
kind-specific fields are built with recursive `getTypeCode` calls on the
published module, and `finishTypeCode` installs the initializer. -/
def buildTypeCode (env : Env) : Nat → GoType → Module → Option (CVal × Module)
  | 0, _, _ => none
  | fuel + 1, typ, mod1 =>
  match typ with
  | .basic b =>
      (getTypeCode env fuel (.pointer (.basic b)) mod1).map fun r =>
        finishTypeCode env (.basic b) [r.1] r.2
  | .named n =>
      match getTypeCode env fuel (.pointer (.named n)) mod1 with
      | none => none
      | some (ptrTo, mod2) =>
          (getTypeCode env fuel (env.underlyingOf n) mod2).map fun r =>
            finishTypeCode env (.named n) [ptrTo, r.1] r.2
  | .chan d e =>
      match getTypeCode env fuel (.pointer (.chan d e)) mod1 with
      | none => none
      | some (ptrTo, mod2) =>
          (getTypeCode env fuel e mod2).map fun r =>
            finishTypeCode env (.chan d e) [ptrTo, r.1] r.2
  | .slice e =>
      match getTypeCode env fuel (.pointer (.slice e)) mod1 with
      | none => none
      | some (ptrTo, mod2) =>
          (getTypeCode env fuel e mod2).map fun r =>
            finishTypeCode env (.slice e) [ptrTo, r.1] r.2
  | .pointer e =>
      (getTypeCode env fuel e mod1).map fun r =>
        finishTypeCode env (.pointer e) [r.1] r.2
  | .array n e =>
      match getTypeCode env fuel (.pointer (.array n e)) mod1 with
      | none => none
      | some (ptrTo, mod2) =>
          (getTypeCode env fuel e mod2).map fun r =>
            finishTypeCode env (.array n e)
              [ptrTo, r.1, .intC (8 * env.ptrSize) n] r.2
  | .mapT k v =>
      (getTypeCode env fuel (.pointer (.mapT k v)) mod1).map fun r =>
        finishTypeCode env (.mapT k v) [r.1] r.2
  | .structT fs =>
      match getTypeCode env fuel (.pointer (.structT fs)) mod1 with
      | none => none
      | some (ptrTo, mod2) =>
          (structFieldRecs env fuel (descName (.structT fs)) fs mod2).map fun r =>
            finishTypeCode env (.structT fs)
              [.intC 16 fs.length, ptrTo, .arrayC r.1] r.2
  | .interfaceT ms =>
      (getTypeCode env fuel (.pointer (.interfaceT ms)) mod1).map fun r =>
        finishTypeCode env (.interfaceT ms) [r.1] r.2
  | .signature ps rs =>
      (getTypeCode env fuel (.pointer (.signature ps rs)) mod1).map fun r =>
        finishTypeCode env (.signature ps rs) [r.1] r.2

/-- structFieldRecs is the field loop of the struct branch of
`getTypeCode`: for each field, add the (unconditionally named)
internal constant data-blob global, compute the field type's descriptor
recursively, and collect the `{fieldType, dataPtr}` records. -/
def structFieldRecs (env : Env) :
    Nat → Str → List StructFieldT → Module → Option (List CVal × Module)
  | 0, _, _, _ => none
  | _ + 1, _, [], mod => some ([], mod)
  | fuel + 1, gname, f :: fs, mod =>
      match getTypeCode env fuel f.typ
          (mod.addGlobal (gname ++ '.' :: f.name)
            { init := some (.bytesC (fieldDataBytes f)), linkage := .internal,
              isConstant := true, unnamedAddr := true, align := some 1 }) with
      | none => none
      | some (ft, mod2) =>
          (structFieldRecs env fuel gname fs mod2).map fun r =>
            (CVal.structC [ft, .addrC (gname ++ '.' :: f.name) 0] :: r.1, r.2)
end

/-- Global lookup after adding a global. -/
theorem Module.findGlobal_addGlobal (m : Module) (n n' : Str) (g : Global) :
    (m.addGlobal n g).findGlobal n' = if n = n' then some g else m.findGlobal n' := by
  by_cases h : n = n'
  · simp [Module.findGlobal, Module.addGlobal, List.find?, h]
  · have hb : (n == n') = false := beq_eq_false_iff_ne.2 h
    simp [Module.findGlobal, Module.addGlobal, List.find?, hb, h]

/-- First-match lookup over a list after an in-place replacement of the
first entry named `n`. -/
theorem find_replaceFirstG (l : List (Str × Global)) (n n' : Str) (f : Global → Global) :
    ((replaceFirstG l n f).find? fun p => p.1 == n').map (·.2) =
      if n = n' then ((l.find? fun p => p.1 == n).map (·.2)).map f
      else (l.find? fun p => p.1 == n').map (·.2) := by
  induction l with
  | nil => by_cases h : n = n' <;> simp [replaceFirstG, List.find?, h]
  | cons p l ihl =>
      obtain ⟨k, g⟩ := p
      by_cases hkn : k = n
      · subst hkn
        by_cases h : k = n'
        · subst h
          simp [replaceFirstG, List.find?]
        · have hb : (k == n') = false := beq_eq_false_iff_ne.2 h
          simp [replaceFirstG, List.find?, hb, h]
      · have hbk : (k == n) = false := beq_eq_false_iff_ne.2 hkn
        by_cases h : n = n'
        · subst h
          simp only [replaceFirstG, hbk, Bool.false_eq_true, if_false, List.find?, hbk]
          simpa using ihl
        · by_cases hk' : k = n'
          · subst hk'
            simp [replaceFirstG, hbk, List.find?, h]
          · have hb' : (k == n') = false := beq_eq_false_iff_ne.2 hk'
            simp only [replaceFirstG, hbk, Bool.false_eq_true, if_false, List.find?, hb']
            simpa [h] using ihl

/-- Name counting over a list is unchanged by an in-place replacement. -/
theorem countP_replaceFirstG (l : List (Str × Global)) (n n' : Str) (f : Global → Global) :
    (replaceFirstG l n f).countP (fun p => p.1 == n') =
      l.countP (fun p => p.1 == n') := by
  induction l with
  | nil => simp [replaceFirstG]
  | cons p l ihl =>
      obtain ⟨k, g⟩ := p
      by_cases hkn : (k == n)
      · simp [replaceFirstG, hkn, List.countP_cons]
      · simp only [replaceFirstG, hkn, Bool.false_eq_true, if_false, List.countP_cons, ihl]

/-- Global lookup after mutating a named global. -/
theorem Module.findGlobal_updateGlobal (m : Module) (n n' : Str) (f : Global → Global) :
    (m.updateGlobal n f).findGlobal n' =
      if n = n' then (m.findGlobal n).map f else m.findGlobal n' := by
  show ((replaceFirstG m.globals n f).find? fun p => p.1 == n').map (·.2) = _
  rw [find_replaceFirstG]
  rfl

/-- Global counting after mutating a named global: names are unchanged. -/
theorem Module.countGlobal_updateGlobal (m : Module) (n n' : Str) (f : Global → Global) :
    (m.updateGlobal n f).countGlobal n' = m.countGlobal n' := by
  show (replaceFirstG m.globals n f).countP (fun p => p.1 == n') = _
  rw [countP_replaceFirstG]
  rfl

/-- presMono m m' says every global present in m is present in m'. -/
def presMono (m m' : Module) : Prop :=
  ∀ N, (m.findGlobal N).isSome → (m'.findGlobal N).isSome

/-- presMono is reflexive. -/
theorem presMono_refl (m : Module) : presMono m m := fun _ h => h

/-- presMono is transitive. -/
theorem presMono_trans {m1 m2 m3 : Module} (h1 : presMono m1 m2)
    (h2 : presMono m2 m3) : presMono m1 m3 := fun N h => h2 N (h1 N h)

/-- Adding a global only grows the module. -/
theorem presMono_addGlobal (m : Module) (n : Str) (g : Global) :
    presMono m (m.addGlobal n g) := by
  intro N h
  rw [Module.findGlobal_addGlobal]
  by_cases hn : n = N <;> simp [hn, h]

/-- Mutating a global keeps every present global present. -/
theorem presMono_updateGlobal (m : Module) (n : Str) (f : Global → Global) :
    presMono m (m.updateGlobal n f) := by
  intro N h
  rw [Module.findGlobal_updateGlobal]
  by_cases hn : n = N
  · subst hn; simpa using h
  · simp [hn, h]

/-- Adding a function keeps every global present. -/
theorem presMono_addFunc (m : Module) (n : Str) (f : FuncDecl) :
    presMono m (m.addFunc n f) := fun _ h => h

/-- getMethodSignature only grows the globals. -/
theorem presMono_getMethodSignature (env : Env) (name pkgPath : Str) (sg : GoType)
    (mod : Module) : presMono mod (getMethodSignature env name pkgPath sg mod).2 := by
  rcases hg : mod.findGlobal (getMethodSignatureName env name pkgPath sg) with _ | g <;>
    simp only [getMethodSignature, hg]
  · exact presMono_addGlobal _ _ _
  · exact presMono_refl _

/-- getInterfaceInvokeWrapper does not touch the globals. -/
theorem presMono_getInterfaceInvokeWrapper (env : Env) (m : GoMethod) (mod : Module) :
    presMono mod (getInterfaceInvokeWrapper env m mod).2 := by
  rcases hf : mod.findFunc (m.fnName ++ str "$invoke") with _ | f <;>
    simp only [getInterfaceInvokeWrapper, hf]
  · by_cases hp : m.ptrRecv <;> simp only [hp, Bool.false_eq_true, if_true, if_false]
    · exact presMono_refl _
    · exact presMono_addFunc _ _ _
  · exact presMono_refl _

/-- buildMethodTables only grows the globals. -/
theorem presMono_buildMethodTables (env : Env) (ms : List GoMethod) (mod : Module) :
    presMono mod (buildMethodTables env ms mod).2.2 := by
  induction ms generalizing mod with
  | nil => exact presMono_refl _
  | cons m ms ih =>
      exact presMono_trans (presMono_getMethodSignature env m.name m.pkgPath m.sig mod)
        (presMono_trans (presMono_getInterfaceInvokeWrapper env m _) (ih _))

/-- getTypeMethodSet only grows the globals. -/
theorem presMono_getTypeMethodSet (env : Env) (typ : GoType) (mod : Module) :
    presMono mod (getTypeMethodSet env typ mod).2 := by
  rcases hg : mod.findGlobal (env.typeString typ ++ str "$methodset") with _ | g <;>
    simp only [getTypeMethodSet, hg]
  · exact presMono_trans (presMono_buildMethodTables env _ _) (presMono_addGlobal _ _ _)
  · exact presMono_refl _

/-- The tail of descriptor creation: `finishTypeCode` answers the GEP at
the descriptor offset and only grows the globals. -/
theorem finishTypeCode_shape (env : Env) (typ : GoType) (kf : List CVal)
    (mod2 : Module) :
    (finishTypeCode env typ kf mod2).1 =
        .addrC (descName typ) (descOffset env typ) ∧
      presMono mod2 (finishTypeCode env typ kf mod2).2 := by
  unfold finishTypeCode descOffset
  by_cases hms : hasMethodSet env typ = true
  · rw [if_pos hms, if_pos hms]
    exact ⟨rfl, presMono_trans (presMono_getTypeMethodSet env typ mod2)
      (presMono_updateGlobal _ _ _)⟩
  · rw [if_neg hms, if_neg hms]
    exact ⟨rfl, presMono_updateGlobal _ _ _⟩

/-- A just-added global is present. -/
theorem findGlobal_addGlobal_isSome (m : Module) (n : Str) (g : Global) :
    ((m.addGlobal n g).findGlobal n).isSome := by
  rw [Module.findGlobal_addGlobal, if_pos rfl]; rfl

/-- Shape and growth of the descriptor synthesizer: a successful
`getTypeCode` run answers the GEP to the descriptor's kind field, only
grows the globals, and leaves the descriptor present; `buildTypeCode`
likewise, and the field loop only grows the globals. -/
theorem descCoreProps (env : Env) : ∀ fuel : Nat,
    (∀ typ mod v mod', getTypeCode env fuel typ mod = some (v, mod') →
      v = .addrC (descName typ) (descOffset env typ) ∧
      presMono mod mod' ∧ (mod'.findGlobal (descName typ)).isSome) ∧
    (∀ typ mod1 v mod', buildTypeCode env fuel typ mod1 = some (v, mod') →
      v = .addrC (descName typ) (descOffset env typ) ∧ presMono mod1 mod') ∧
    (∀ gname fs mod r mod', structFieldRecs env fuel gname fs mod = some (r, mod') →
      presMono mod mod') := by
  intro fuel
  induction fuel with
  | zero =>
      refine ⟨?_, ?_, ?_⟩
      · intro typ mod v mod' h; simp [getTypeCode] at h
      · intro typ mod1 v mod' h; simp [buildTypeCode] at h
      · intro gname fs mod r mod' h; simp [structFieldRecs] at h
  | succ fuel ih =>
      obtain ⟨ihG, ihB, ihS⟩ := ih
      refine ⟨?_, ?_, ?_⟩
      · intro typ mod v mod' h
        simp only [getTypeCode] at h
        split at h
        case _ g hfind =>
          simp only [Option.some.injEq, Prod.mk.injEq] at h
          refine ⟨h.1.symm, ?_, ?_⟩
          · rw [← h.2]; exact presMono_refl _
          · rw [← h.2, hfind]; rfl
        case _ hfind =>
          obtain ⟨hv, hmono⟩ := ihB _ _ _ _ h
          exact ⟨hv, presMono_trans (presMono_addGlobal _ _ _) hmono,
            hmono _ (findGlobal_addGlobal_isSome _ _ _)⟩
      · intro typ mod1 v mod' h
        cases typ
        case basic b =>
            simp only [buildTypeCode] at h
            rcases hrec : getTypeCode env fuel (.pointer (.basic b)) mod1 with _ | p
            · rw [hrec] at h; cases h
            · rw [hrec] at h
              simp only [Option.map_some', Option.some.injEq] at h
              have hfin := finishTypeCode_shape env (.basic b) ([p.1]) p.2
              have hv : v = (finishTypeCode env (.basic b) ([p.1]) p.2).1 := by rw [h]
              have hm : mod' = (finishTypeCode env (.basic b) ([p.1]) p.2).2 := by rw [h]
              subst hv hm
              exact ⟨hfin.1, presMono_trans (ihG _ _ _ _ hrec).2.1 hfin.2⟩
        case named n =>
            simp only [buildTypeCode] at h
            split at h
            · cases h
            · rename_i ptrTo mod2 heq
              rcases hrec2 : getTypeCode env fuel (env.underlyingOf n) mod2 with _ | q
              · rw [hrec2] at h; cases h
              · rw [hrec2] at h
                simp only [Option.map_some', Option.some.injEq] at h
                have hfin := finishTypeCode_shape env (.named n) ([ptrTo, q.1]) q.2
                have hv : v = (finishTypeCode env (.named n) ([ptrTo, q.1]) q.2).1 := by rw [h]
                have hm : mod' = (finishTypeCode env (.named n) ([ptrTo, q.1]) q.2).2 := by rw [h]
                subst hv hm
                exact ⟨hfin.1, presMono_trans (ihG _ _ _ _ heq).2.1
                  (presMono_trans (ihG _ _ _ _ hrec2).2.1 hfin.2)⟩
        case chan d e =>
            simp only [buildTypeCode] at h
            split at h
            · cases h
            · rename_i ptrTo mod2 heq
              rcases hrec2 : getTypeCode env fuel e mod2 with _ | q
              · rw [hrec2] at h; cases h
              · rw [hrec2] at h
                simp only [Option.map_some', Option.some.injEq] at h
                have hfin := finishTypeCode_shape env (.chan d e) ([ptrTo, q.1]) q.2
                have hv : v = (finishTypeCode env (.chan d e) ([ptrTo, q.1]) q.2).1 := by rw [h]
                have hm : mod' = (finishTypeCode env (.chan d e) ([ptrTo, q.1]) q.2).2 := by rw [h]
                subst hv hm
                exact ⟨hfin.1, presMono_trans (ihG _ _ _ _ heq).2.1
                  (presMono_trans (ihG _ _ _ _ hrec2).2.1 hfin.2)⟩
        case slice e =>
            simp only [buildTypeCode] at h
            split at h
            · cases h
            · rename_i ptrTo mod2 heq
              rcases hrec2 : getTypeCode env fuel e mod2 with _ | q
              · rw [hrec2] at h; cases h
              · rw [hrec2] at h
                simp only [Option.map_some', Option.some.injEq] at h
                have hfin := finishTypeCode_shape env (.slice e) ([ptrTo, q.1]) q.2
                have hv : v = (finishTypeCode env (.slice e) ([ptrTo, q.1]) q.2).1 := by rw [h]
                have hm : mod' = (finishTypeCode env (.slice e) ([ptrTo, q.1]) q.2).2 := by rw [h]
                subst hv hm
                exact ⟨hfin.1, presMono_trans (ihG _ _ _ _ heq).2.1
                  (presMono_trans (ihG _ _ _ _ hrec2).2.1 hfin.2)⟩
        case pointer e =>
            simp only [buildTypeCode] at h
            rcases hrec : getTypeCode env fuel (e) mod1 with _ | p
            · rw [hrec] at h; cases h
            · rw [hrec] at h
              simp only [Option.map_some', Option.some.injEq] at h
              have hfin := finishTypeCode_shape env (.pointer e) ([p.1]) p.2
              have hv : v = (finishTypeCode env (.pointer e) ([p.1]) p.2).1 := by rw [h]
              have hm : mod' = (finishTypeCode env (.pointer e) ([p.1]) p.2).2 := by rw [h]
              subst hv hm
              exact ⟨hfin.1, presMono_trans (ihG _ _ _ _ hrec).2.1 hfin.2⟩
        case array n e =>
            simp only [buildTypeCode] at h
            split at h
            · cases h
            · rename_i ptrTo mod2 heq
              rcases hrec2 : getTypeCode env fuel e mod2 with _ | q
              · rw [hrec2] at h; cases h
              · rw [hrec2] at h
                simp only [Option.map_some', Option.some.injEq] at h
                have hfin := finishTypeCode_shape env (.array n e) ([ptrTo, q.1, .intC (8 * env.ptrSize) n]) q.2
                have hv : v = (finishTypeCode env (.array n e) ([ptrTo, q.1, .intC (8 * env.ptrSize) n]) q.2).1 := by rw [h]
                have hm : mod' = (finishTypeCode env (.array n e) ([ptrTo, q.1, .intC (8 * env.ptrSize) n]) q.2).2 := by rw [h]
                subst hv hm
                exact ⟨hfin.1, presMono_trans (ihG _ _ _ _ heq).2.1
                  (presMono_trans (ihG _ _ _ _ hrec2).2.1 hfin.2)⟩
        case mapT k vv =>
            simp only [buildTypeCode] at h
            rcases hrec : getTypeCode env fuel (.pointer (.mapT k vv)) mod1 with _ | p
            · rw [hrec] at h; cases h
            · rw [hrec] at h
              simp only [Option.map_some', Option.some.injEq] at h
              have hfin := finishTypeCode_shape env (.mapT k vv) ([p.1]) p.2
              have hv : v = (finishTypeCode env (.mapT k vv) ([p.1]) p.2).1 := by rw [h]
              have hm : mod' = (finishTypeCode env (.mapT k vv) ([p.1]) p.2).2 := by rw [h]
              subst hv hm
              exact ⟨hfin.1, presMono_trans (ihG _ _ _ _ hrec).2.1 hfin.2⟩
        case structT fs =>
            simp only [buildTypeCode] at h
            split at h
            · cases h
            · rename_i ptrTo mod2 heq
              rcases hrec2 : structFieldRecs env fuel (descName (.structT fs)) fs mod2 with _ | q
              · rw [hrec2] at h; cases h
              · rw [hrec2] at h
                simp only [Option.map_some', Option.some.injEq] at h
                have hfin := finishTypeCode_shape env (.structT fs) ([.intC 16 fs.length, ptrTo, .arrayC q.1]) q.2
                have hv : v = (finishTypeCode env (.structT fs) ([.intC 16 fs.length, ptrTo, .arrayC q.1]) q.2).1 := by rw [h]
                have hm : mod' = (finishTypeCode env (.structT fs) ([.intC 16 fs.length, ptrTo, .arrayC q.1]) q.2).2 := by rw [h]
                subst hv hm
                exact ⟨hfin.1, presMono_trans (ihG _ _ _ _ heq).2.1
                  (presMono_trans (ihS _ _ _ _ _ hrec2) hfin.2)⟩
        case interfaceT ms =>
            simp only [buildTypeCode] at h
            rcases hrec : getTypeCode env fuel (.pointer (.interfaceT ms)) mod1 with _ | p
            · rw [hrec] at h; cases h
            · rw [hrec] at h
              simp only [Option.map_some', Option.some.injEq] at h
              have hfin := finishTypeCode_shape env (.interfaceT ms) ([p.1]) p.2
              have hv : v = (finishTypeCode env (.interfaceT ms) ([p.1]) p.2).1 := by rw [h]
              have hm : mod' = (finishTypeCode env (.interfaceT ms) ([p.1]) p.2).2 := by rw [h]
              subst hv hm
              exact ⟨hfin.1, presMono_trans (ihG _ _ _ _ hrec).2.1 hfin.2⟩
        case signature ps rs =>
            simp only [buildTypeCode] at h
            rcases hrec : getTypeCode env fuel (.pointer (.signature ps rs)) mod1 with _ | p
            · rw [hrec] at h; cases h
            · rw [hrec] at h
              simp only [Option.map_some', Option.some.injEq] at h
              have hfin := finishTypeCode_shape env (.signature ps rs) ([p.1]) p.2
              have hv : v = (finishTypeCode env (.signature ps rs) ([p.1]) p.2).1 := by rw [h]
              have hm : mod' = (finishTypeCode env (.signature ps rs) ([p.1]) p.2).2 := by rw [h]
              subst hv hm
              exact ⟨hfin.1, presMono_trans (ihG _ _ _ _ hrec).2.1 hfin.2⟩
      · intro gname fs mod r mod' h
        cases fs with
        | nil =>
            simp only [structFieldRecs, Option.some.injEq, Prod.mk.injEq] at h
            rw [← h.2]
            exact presMono_refl _
        | cons f fs =>
            simp only [structFieldRecs] at h
            split at h
            · cases h
            · rename_i ft mod2 heq
              rcases hrec : structFieldRecs env fuel gname fs mod2 with _ | q
              · rw [hrec] at h; cases h
              · rw [hrec] at h
                simp only [Option.map_some', Option.some.injEq, Prod.mk.injEq] at h
                rw [← h.2]
                exact presMono_trans (presMono_addGlobal _ _ _)
                  (presMono_trans (ihG _ _ _ _ heq).2.1 (ihS _ _ _ _ _ hrec))

/-- The `getTypeCode` component of `descCoreProps`. -/
theorem getTypeCode_shape_mono (env : Env) (fuel : Nat) (typ : GoType)
    (mod : Module) (v : CVal) (mod' : Module)
    (h : getTypeCode env fuel typ mod = some (v, mod')) :
    v = .addrC (descName typ) (descOffset env typ) ∧
      presMono mod mod' ∧ (mod'.findGlobal (descName typ)).isSome :=
  (descCoreProps env fuel).1 typ mod v mod' h

/-- The mutually recursive named pair `type A *B; type B *A` as an
environment: the underlying type of `A` is `*B` and vice versa; no type
has methods. -/
def envC : Env :=
  { underlyingOf := fun n =>
      if n = str "A" then .pointer (.named (str "B"))
      else if n = str "B" then .pointer (.named (str "A"))
      else .basic .bool
    methodSet := fun _ => []
    ptrSize := 8
    quote := fun t => t
    typeString := fun _ => [] }

/-- C4: descriptor synthesis terminates on the cyclic pair
`type A *B; type B *A` — the still-uninitialized descriptor global is
published before the recursive calls, so the run below completes — and
the four produced descriptors cross-reference each other: `A`'s
descriptor points at the `*A` and `*B` descriptors, `*B`'s at `B`'s,
`B`'s at `*B` and `*A`, and `*A`'s back at `A`'s. -/
theorem getTypeCode_cycle_safety :
    ∃ mod : Module,
      getTypeCode envC 12 (.named (str "A")) {} =
        some (.addrC (descName (.named (str "A"))) 0, mod) ∧
      (mod.findGlobal (descName (.named (str "A")))).map Global.init =
        some (some (.structC [.intC 8 53,
          .addrC (descName (.pointer (.named (str "A")))) 0,
          .addrC (descName (.pointer (.named (str "B")))) 0])) ∧
      (mod.findGlobal (descName (.pointer (.named (str "B"))))).map Global.init =
        some (some (.structC [.intC 8 21,
          .addrC (descName (.named (str "B"))) 0])) ∧
      (mod.findGlobal (descName (.named (str "B")))).map Global.init =
        some (some (.structC [.intC 8 53,
          .addrC (descName (.pointer (.named (str "B")))) 0,
          .addrC (descName (.pointer (.named (str "A")))) 0])) ∧
      (mod.findGlobal (descName (.pointer (.named (str "A"))))).map Global.init =
        some (some (.structC [.intC 8 21,
          .addrC (descName (.named (str "A"))) 0])) :=
  ⟨_, rfl, rfl, rfl, rfl, rfl⟩

/-- getTypeMethodSet always answers the `<type.String()>$methodset`
name. -/
theorem getTypeMethodSet_fst (env : Env) (typ : GoType) (mod : Module) :
    (getTypeMethodSet env typ mod).1 = env.typeString typ ++ str "$methodset" := by
  rcases hg : mod.findGlobal (env.typeString typ ++ str "$methodset") with _ | g <;>
    simp only [getTypeMethodSet, hg]

/-- The initializer installed by `finishTypeCode`: a constant struct
whose field at the descriptor offset is the meta byte, preceded — when
the type has a method set — by the bitcast method-set pointer in slot
0. -/
theorem finishTypeCode_layout (env : Env) (typ : GoType) (kf : List CVal)
    (mod2 : Module) (hpres : (mod2.findGlobal (descName typ)).isSome) :
    ∃ flds : List CVal,
      (((finishTypeCode env typ kf mod2).2.findGlobal (descName typ)).map
        Global.init) = some (some (.structC flds)) ∧
      flds.get? (descOffset env typ) = some (.intC 8 (metabyte env typ)) ∧
      (hasMethodSet env typ = true →
        flds.get? 0 = some (.bitcastC (.addrC
          (env.typeString typ ++ str "$methodset") 0))) := by
  unfold finishTypeCode descOffset
  by_cases hms : hasMethodSet env typ = true
  · rw [if_pos hms, if_pos hms]
    refine ⟨.bitcastC (.addrC (getTypeMethodSet env typ mod2).1 0) ::
      .intC 8 (metabyte env typ) :: kf, ?_, rfl, fun _ => ?_⟩
    · rw [Module.findGlobal_updateGlobal, if_pos rfl]
      have hp2 := presMono_getTypeMethodSet env typ mod2 (descName typ) hpres
      rcases hfind : (getTypeMethodSet env typ mod2).2.findGlobal (descName typ) with _ | g
      · rw [hfind] at hp2; cases hp2
      · simp
    · simp [getTypeMethodSet_fst]
  · rw [if_neg hms, if_neg hms]
    refine ⟨.intC 8 (metabyte env typ) :: kf, ?_, rfl, fun hc => absurd hc hms⟩
    rw [Module.findGlobal_updateGlobal, if_pos rfl]
    rcases hfind : mod2.findGlobal (descName typ) with _ | g
    · rw [hfind] at hpres; cases hpres
    · simp

/-- The initializer installed by `buildTypeCode`, given that the
descriptor global was already published. -/
theorem buildTypeCode_layout (env : Env) (fuel : Nat) (typ : GoType)
    (mod1 : Module) (v : CVal) (mod' : Module)
    (hpres : (mod1.findGlobal (descName typ)).isSome)
    (h : buildTypeCode env (fuel + 1) typ mod1 = some (v, mod')) :
    ∃ flds : List CVal,
      (mod'.findGlobal (descName typ)).map Global.init =
        some (some (.structC flds)) ∧
      flds.get? (descOffset env typ) = some (.intC 8 (metabyte env typ)) ∧
      (hasMethodSet env typ = true →
        flds.get? 0 = some (.bitcastC (.addrC
          (env.typeString typ ++ str "$methodset") 0))) := by
  cases typ
  case basic b =>
      simp only [buildTypeCode] at h
      rcases hrec : getTypeCode env fuel (.pointer (.basic b)) mod1 with _ | p
      · rw [hrec] at h; cases h
      · rw [hrec] at h
        simp only [Option.map_some', Option.some.injEq] at h
        have hpres2 := (getTypeCode_shape_mono env fuel _ _ _ _ hrec).2.1 _ hpres
        have hm : mod' = (finishTypeCode env (.basic b) ([p.1]) p.2).2 := by rw [h]
        subst hm
        exact finishTypeCode_layout env (.basic b) ([p.1]) p.2 hpres2
  case named n =>
      simp only [buildTypeCode] at h
      split at h
      · cases h
      · rename_i ptrTo mod2 heq
        rcases hrec2 : getTypeCode env fuel (env.underlyingOf n) mod2 with _ | q
        · rw [hrec2] at h; cases h
        · rw [hrec2] at h
          simp only [Option.map_some', Option.some.injEq] at h
          have hpres2 := (getTypeCode_shape_mono env fuel _ _ _ _ hrec2).2.1 _
            ((getTypeCode_shape_mono env fuel _ _ _ _ heq).2.1 _ hpres)
          have hm : mod' = (finishTypeCode env (.named n) ([ptrTo, q.1]) q.2).2 := by rw [h]
          subst hm
          exact finishTypeCode_layout env (.named n) ([ptrTo, q.1]) q.2 hpres2
  case chan d e =>
      simp only [buildTypeCode] at h
      split at h
      · cases h
      · rename_i ptrTo mod2 heq
        rcases hrec2 : getTypeCode env fuel e mod2 with _ | q
        · rw [hrec2] at h; cases h
        · rw [hrec2] at h
          simp only [Option.map_some', Option.some.injEq] at h
          have hpres2 := (getTypeCode_shape_mono env fuel _ _ _ _ hrec2).2.1 _
            ((getTypeCode_shape_mono env fuel _ _ _ _ heq).2.1 _ hpres)
          have hm : mod' = (finishTypeCode env (.chan d e) ([ptrTo, q.1]) q.2).2 := by rw [h]
          subst hm
          exact finishTypeCode_layout env (.chan d e) ([ptrTo, q.1]) q.2 hpres2
  case slice e =>
      simp only [buildTypeCode] at h
      split at h
      · cases h
      · rename_i ptrTo mod2 heq
        rcases hrec2 : getTypeCode env fuel e mod2 with _ | q
        · rw [hrec2] at h; cases h
        · rw [hrec2] at h
          simp only [Option.map_some', Option.some.injEq] at h
          have hpres2 := (getTypeCode_shape_mono env fuel _ _ _ _ hrec2).2.1 _
            ((getTypeCode_shape_mono env fuel _ _ _ _ heq).2.1 _ hpres)
          have hm : mod' = (finishTypeCode env (.slice e) ([ptrTo, q.1]) q.2).2 := by rw [h]
          subst hm
          exact finishTypeCode_layout env (.slice e) ([ptrTo, q.1]) q.2 hpres2
  case pointer e =>
      simp only [buildTypeCode] at h
      rcases hrec : getTypeCode env fuel (e) mod1 with _ | p
      · rw [hrec] at h; cases h
      · rw [hrec] at h
        simp only [Option.map_some', Option.some.injEq] at h
        have hpres2 := (getTypeCode_shape_mono env fuel _ _ _ _ hrec).2.1 _ hpres
        have hm : mod' = (finishTypeCode env (.pointer e) ([p.1]) p.2).2 := by rw [h]
        subst hm
        exact finishTypeCode_layout env (.pointer e) ([p.1]) p.2 hpres2
  case array n e =>
      simp only [buildTypeCode] at h
      split at h
      · cases h
      · rename_i ptrTo mod2 heq
        rcases hrec2 : getTypeCode env fuel e mod2 with _ | q
        · rw [hrec2] at h; cases h
        · rw [hrec2] at h
          simp only [Option.map_some', Option.some.injEq] at h
          have hpres2 := (getTypeCode_shape_mono env fuel _ _ _ _ hrec2).2.1 _
            ((getTypeCode_shape_mono env fuel _ _ _ _ heq).2.1 _ hpres)
          have hm : mod' = (finishTypeCode env (.array n e) ([ptrTo, q.1, .intC (8 * env.ptrSize) n]) q.2).2 := by rw [h]
          subst hm
          exact finishTypeCode_layout env (.array n e) ([ptrTo, q.1, .intC (8 * env.ptrSize) n]) q.2 hpres2
  case mapT k vv =>
      simp only [buildTypeCode] at h
      rcases hrec : getTypeCode env fuel (.pointer (.mapT k vv)) mod1 with _ | p
      · rw [hrec] at h; cases h
      · rw [hrec] at h
        simp only [Option.map_some', Option.some.injEq] at h
        have hpres2 := (getTypeCode_shape_mono env fuel _ _ _ _ hrec).2.1 _ hpres
        have hm : mod' = (finishTypeCode env (.mapT k vv) ([p.1]) p.2).2 := by rw [h]
        subst hm
        exact finishTypeCode_layout env (.mapT k vv) ([p.1]) p.2 hpres2
  case structT fs =>
      simp only [buildTypeCode] at h
      split at h
      · cases h
      · rename_i ptrTo mod2 heq
        rcases hrec2 : structFieldRecs env fuel (descName (.structT fs)) fs mod2 with _ | q
        · rw [hrec2] at h; cases h
        · rw [hrec2] at h
          simp only [Option.map_some', Option.some.injEq] at h
          have hpres2 := ((descCoreProps env fuel).2.2 _ _ _ _ _ hrec2) _
            ((getTypeCode_shape_mono env fuel _ _ _ _ heq).2.1 _ hpres)
          have hm : mod' = (finishTypeCode env (.structT fs) ([.intC 16 fs.length, ptrTo, .arrayC q.1]) q.2).2 := by rw [h]
          subst hm
          exact finishTypeCode_layout env (.structT fs) ([.intC 16 fs.length, ptrTo, .arrayC q.1]) q.2 hpres2
  case interfaceT ms =>
      simp only [buildTypeCode] at h
      rcases hrec : getTypeCode env fuel (.pointer (.interfaceT ms)) mod1 with _ | p
      · rw [hrec] at h; cases h
      · rw [hrec] at h
        simp only [Option.map_some', Option.some.injEq] at h
        have hpres2 := (getTypeCode_shape_mono env fuel _ _ _ _ hrec).2.1 _ hpres
        have hm : mod' = (finishTypeCode env (.interfaceT ms) ([p.1]) p.2).2 := by rw [h]
        subst hm
        exact finishTypeCode_layout env (.interfaceT ms) ([p.1]) p.2 hpres2
  case signature ps rs =>
      simp only [buildTypeCode] at h
      rcases hrec : getTypeCode env fuel (.pointer (.signature ps rs)) mod1 with _ | p
      · rw [hrec] at h; cases h
      · rw [hrec] at h
        simp only [Option.map_some', Option.some.injEq] at h
        have hpres2 := (getTypeCode_shape_mono env fuel _ _ _ _ hrec).2.1 _ hpres
        have hm : mod' = (finishTypeCode env (.signature ps rs) ([p.1]) p.2).2 := by rw [h]
        subst hm
        exact finishTypeCode_layout env (.signature ps rs) ([p.1]) p.2 hpres2

/-- C3: a synthesized descriptor is prefixed by the method-set slot
exactly when the type is method-set-bearing, and the address
`getTypeCode` answers is the GEP past that slot — index 1 of the global
— while every other type's address is the head of the global; in both
cases the meta byte sits at offset 0 relative to the answered address
(the field at the GEP index), with the bitcast method-set pointer in the
slot before it when present. -/
theorem getTypeCode_descriptor_layout (env : Env) (fuel : Nat) (typ : GoType)
    (mod : Module) (v : CVal) (mod' : Module)
    (hfresh : mod.findGlobal (descName typ) = none)
    (h : getTypeCode env fuel typ mod = some (v, mod')) :
    v = .addrC (descName typ) (if hasMethodSet env typ then 1 else 0) ∧
    ∃ flds : List CVal,
      (mod'.findGlobal (descName typ)).map Global.init =
        some (some (.structC flds)) ∧
      flds.get? (if hasMethodSet env typ then 1 else 0) =
        some (.intC 8 (metabyte env typ)) ∧
      (hasMethodSet env typ = true →
        flds.get? 0 = some (.bitcastC (.addrC
          (env.typeString typ ++ str "$methodset") 0))) := by
  have hshape := getTypeCode_shape_mono env fuel typ mod v mod' h
  refine ⟨hshape.1.trans (by rw [descOffset]), ?_⟩
  cases fuel with
  | zero => simp [getTypeCode] at h
  | succ fuel =>
      simp only [getTypeCode] at h
      rw [hfresh] at h
      cases fuel with
      | zero => simp [buildTypeCode] at h
      | succ fuel =>
          have := buildTypeCode_layout env fuel typ
            (mod.addGlobal (descName typ) {}) v mod'
            (findGlobal_addGlobal_isSome _ _ _) h
          simpa [descOffset] using this

/-- Witness for C3 at the method-set-free type `int` of `envA` on the
empty module. -/
theorem getTypeCode_descriptor_layout_witness :
    Module.findGlobal {} (descName (.basic .int)) = none ∧
    ∃ v mod', getTypeCode envA 10 (.basic .int) {} = some (v, mod') ∧
      v = .addrC (descName (.basic .int))
        (if hasMethodSet envA (.basic .int) then 1 else 0) :=
  ⟨rfl, by
    obtain ⟨hv, hrest⟩ :=
      getTypeCode_descriptor_layout envA 10 (.basic .int) {} _ _ rfl rfl
    exact ⟨_, _, rfl, hv⟩⟩

/-- A present global has positive count. -/
theorem Module.one_le_countGlobal (m : Module) (n : Str)
    (h : (m.findGlobal n).isSome) : 1 ≤ m.countGlobal n := by
  unfold Module.findGlobal at h
  rcases hf : m.globals.find? (fun p => p.1 == n) with _ | p
  · rw [hf] at h; cases h
  · have hmem := List.mem_of_find?_eq_some hf
    have hp := List.find?_some hf
    exact List.countP_pos.2 ⟨p, hmem, hp⟩

/-- A guarded insert (add only after a failed lookup of the same name on
the same module) keeps every name's global count at most one. -/
theorem countLe_addGlobal_guard (m : Module) (nm n : Str) (g : Global)
    (hfind : m.findGlobal nm = none) (hle : m.countGlobal n ≤ 1) :
    (m.addGlobal nm g).countGlobal n ≤ 1 := by
  by_cases h : nm = n
  · subst h
    rw [Module.countGlobal_addGlobal, if_pos rfl,
      Module.countGlobal_eq_zero m nm hfind]
  · rw [Module.countGlobal_addGlobal, if_neg h]
    omega

/-- `getMethodSignature` keeps every name's global count at most one. -/
theorem countLe_getMethodSignature (env : Env) (a b : Str) (sg : GoType)
    (mod : Module) (n : Str) (hle : mod.countGlobal n ≤ 1) :
    ((getMethodSignature env a b sg mod).2).countGlobal n ≤ 1 := by
  unfold getMethodSignature
  rcases hf : mod.findGlobal (getMethodSignatureName env a b sg) with _ | g <;>
    simp only [hf]
  · exact countLe_addGlobal_guard _ _ _ _ hf hle
  · exact hle

/-- `getInterfaceInvokeWrapper` adds no global. -/
theorem countGlobal_getInterfaceInvokeWrapper (env : Env) (m : GoMethod)
    (mod : Module) (n : Str) :
    ((getInterfaceInvokeWrapper env m mod).2).countGlobal n = mod.countGlobal n := by
  unfold getInterfaceInvokeWrapper
  rcases hf : mod.findFunc (m.fnName ++ str "$invoke") with _ | g <;>
    simp only [hf]
  · by_cases hp : m.ptrRecv <;> simp [hp, Module.countGlobal_addFunc]

/-- The method-table loop keeps every name's global count at most one. -/
theorem countLe_buildMethodTables (env : Env) (ms : List GoMethod)
    (mod : Module) (n : Str) (hle : mod.countGlobal n ≤ 1) :
    (buildMethodTables env ms mod).2.2.countGlobal n ≤ 1 := by
  induction ms generalizing mod with
  | nil => exact hle
  | cons m ms ih =>
      simp only [buildMethodTables]
      refine ih _ ?_
      rw [countGlobal_getInterfaceInvokeWrapper]
      exact countLe_getMethodSignature env m.name m.pkgPath m.sig mod n hle

/-- `getTypeMethodSet` keeps the count of any name other than its own
method-set symbol at most one. -/
theorem countLe_getTypeMethodSet (env : Env) (typ : GoType) (mod : Module)
    (n : Str) (hne : n ≠ env.typeString typ ++ str "$methodset")
    (hle : mod.countGlobal n ≤ 1) :
    ((getTypeMethodSet env typ mod).2).countGlobal n ≤ 1 := by
  unfold getTypeMethodSet
  rcases hf : mod.findGlobal (env.typeString typ ++ str "$methodset") with _ | g <;>
    simp only [hf]
  · rw [Module.countGlobal_addGlobal, if_neg fun hc => hne hc.symm]
    have := countLe_buildMethodTables env (env.methodSet typ) mod n hle
    omega
  · exact hle

/-- `finishTypeCode` keeps the count of any name other than the type's
method-set symbol at most one. -/
theorem countLe_finishTypeCode (env : Env) (typ : GoType) (kf : List CVal)
    (mod2 : Module) (n : Str)
    (hne : n ≠ env.typeString typ ++ str "$methodset")
    (hle : mod2.countGlobal n ≤ 1) :
    ((finishTypeCode env typ kf mod2).2).countGlobal n ≤ 1 := by
  unfold finishTypeCode
  by_cases hms : hasMethodSet env typ = true
  · rw [if_pos hms, Module.countGlobal_updateGlobal]
    exact countLe_getTypeMethodSet env typ mod2 n hne hle
  · rw [if_neg hms, Module.countGlobal_updateGlobal]
    exact hle

/-- Every insertion the descriptor synthesizer performs is either
guarded by a lookup of the same name or carries a struct-field data name
or a method-set name: for a name that is neither, the global count stays
at most one through `getTypeCode`, `buildTypeCode` and the field loop. -/
theorem descCount (env : Env) (n : Str)
    (hdata : ∀ (fs : List StructFieldT) (f : StructFieldT),
      n ≠ descName (.structT fs) ++ '.' :: f.name)
    (hms : ∀ t : GoType, n ≠ env.typeString t ++ str "$methodset") :
    ∀ fuel : Nat,
    (∀ typ mod v mod', getTypeCode env fuel typ mod = some (v, mod') →
      mod.countGlobal n ≤ 1 → mod'.countGlobal n ≤ 1) ∧
    (∀ typ mod1 v mod', buildTypeCode env fuel typ mod1 = some (v, mod') →
      mod1.countGlobal n ≤ 1 → mod'.countGlobal n ≤ 1) ∧
    (∀ gname fs mod r mod',
      (∀ f : StructFieldT, n ≠ gname ++ '.' :: f.name) →
      structFieldRecs env fuel gname fs mod = some (r, mod') →
      mod.countGlobal n ≤ 1 → mod'.countGlobal n ≤ 1) := by
  intro fuel
  induction fuel with
  | zero =>
      refine ⟨?_, ?_, ?_⟩
      · intro typ mod v mod' h; simp [getTypeCode] at h
      · intro typ mod1 v mod' h; simp [buildTypeCode] at h
      · intro gname fs mod r mod' hg h; simp [structFieldRecs] at h
  | succ fuel ih =>
      obtain ⟨ihG, ihB, ihS⟩ := ih
      refine ⟨?_, ?_, ?_⟩
      · intro typ mod v mod' h hle
        simp only [getTypeCode] at h
        split at h
        case _ g hfind =>
          simp only [Option.some.injEq, Prod.mk.injEq] at h
          rw [← h.2]
          exact hle
        case _ hfind =>
          exact ihB _ _ _ _ h (countLe_addGlobal_guard _ _ _ _ hfind hle)
      · intro typ mod1 v mod' h hle
        cases typ
        case basic b =>
            simp only [buildTypeCode] at h
            rcases hrec : getTypeCode env fuel (.pointer (.basic b)) mod1 with _ | p
            · rw [hrec] at h; cases h
            · rw [hrec] at h
              simp only [Option.map_some', Option.some.injEq, Prod.mk.injEq] at h
              have hm : mod' = (finishTypeCode env (.basic b) ([p.1]) p.2).2 := by rw [h]
              rw [hm]
              exact countLe_finishTypeCode env (.basic b) ([p.1]) p.2 n (hms _)
                (ihG _ _ _ _ hrec hle)
        case named nn =>
            simp only [buildTypeCode] at h
            split at h
            · cases h
            · rename_i ptrTo mod2 heq
              rcases hrec2 : getTypeCode env fuel (env.underlyingOf nn) mod2 with _ | q
              · rw [hrec2] at h; cases h
              · rw [hrec2] at h
                simp only [Option.map_some', Option.some.injEq, Prod.mk.injEq] at h
                have hm : mod' = (finishTypeCode env (.named nn) ([ptrTo, q.1]) q.2).2 := by rw [h]
                rw [hm]
                exact countLe_finishTypeCode env (.named nn) ([ptrTo, q.1]) q.2 n (hms _)
                  (ihG _ _ _ _ hrec2 (ihG _ _ _ _ heq hle))
        case chan d e =>
            simp only [buildTypeCode] at h
            split at h
            · cases h
            · rename_i ptrTo mod2 heq
              rcases hrec2 : getTypeCode env fuel e mod2 with _ | q
              · rw [hrec2] at h; cases h
              · rw [hrec2] at h
                simp only [Option.map_some', Option.some.injEq, Prod.mk.injEq] at h
                have hm : mod' = (finishTypeCode env (.chan d e) ([ptrTo, q.1]) q.2).2 := by rw [h]
                rw [hm]
                exact countLe_finishTypeCode env (.chan d e) ([ptrTo, q.1]) q.2 n (hms _)
                  (ihG _ _ _ _ hrec2 (ihG _ _ _ _ heq hle))
        case slice e =>
            simp only [buildTypeCode] at h
            split at h
            · cases h
            · rename_i ptrTo mod2 heq
              rcases hrec2 : getTypeCode env fuel e mod2 with _ | q
              · rw [hrec2] at h; cases h
              · rw [hrec2] at h
                simp only [Option.map_some', Option.some.injEq, Prod.mk.injEq] at h
                have hm : mod' = (finishTypeCode env (.slice e) ([ptrTo, q.1]) q.2).2 := by rw [h]
                rw [hm]
                exact countLe_finishTypeCode env (.slice e) ([ptrTo, q.1]) q.2 n (hms _)
                  (ihG _ _ _ _ hrec2 (ihG _ _ _ _ heq hle))
        case pointer e =>
            simp only [buildTypeCode] at h
            rcases hrec : getTypeCode env fuel (e) mod1 with _ | p
            · rw [hrec] at h; cases h
            · rw [hrec] at h
              simp only [Option.map_some', Option.some.injEq, Prod.mk.injEq] at h
              have hm : mod' = (finishTypeCode env (.pointer e) ([p.1]) p.2).2 := by rw [h]
              rw [hm]
              exact countLe_finishTypeCode env (.pointer e) ([p.1]) p.2 n (hms _)
                (ihG _ _ _ _ hrec hle)
        case array nn e =>
            simp only [buildTypeCode] at h
            split at h
            · cases h
            · rename_i ptrTo mod2 heq
              rcases hrec2 : getTypeCode env fuel e mod2 with _ | q
              · rw [hrec2] at h; cases h
              · rw [hrec2] at h
                simp only [Option.map_some', Option.some.injEq, Prod.mk.injEq] at h
                have hm : mod' = (finishTypeCode env (.array nn e) ([ptrTo, q.1, .intC (8 * env.ptrSize) nn]) q.2).2 := by rw [h]
                rw [hm]
                exact countLe_finishTypeCode env (.array nn e) ([ptrTo, q.1, .intC (8 * env.ptrSize) nn]) q.2 n (hms _)
                  (ihG _ _ _ _ hrec2 (ihG _ _ _ _ heq hle))
        case mapT k vv =>
            simp only [buildTypeCode] at h
            rcases hrec : getTypeCode env fuel (.pointer (.mapT k vv)) mod1 with _ | p
            · rw [hrec] at h; cases h
            · rw [hrec] at h
              simp only [Option.map_some', Option.some.injEq, Prod.mk.injEq] at h
              have hm : mod' = (finishTypeCode env (.mapT k vv) ([p.1]) p.2).2 := by rw [h]
              rw [hm]
              exact countLe_finishTypeCode env (.mapT k vv) ([p.1]) p.2 n (hms _)
                (ihG _ _ _ _ hrec hle)
        case structT fs =>
            simp only [buildTypeCode] at h
            split at h
            · cases h
            · rename_i ptrTo mod2 heq
              rcases hrec2 : structFieldRecs env fuel (descName (.structT fs)) fs mod2 with _ | q
              · rw [hrec2] at h; cases h
              · rw [hrec2] at h
                simp only [Option.map_some', Option.some.injEq, Prod.mk.injEq] at h
                have hm : mod' = (finishTypeCode env (.structT fs) ([.intC 16 fs.length, ptrTo, .arrayC q.1]) q.2).2 := by rw [h]
                rw [hm]
                exact countLe_finishTypeCode env (.structT fs) ([.intC 16 fs.length, ptrTo, .arrayC q.1]) q.2 n (hms _)
                  (ihS _ _ _ _ _ (fun f => hdata fs f) hrec2 (ihG _ _ _ _ heq hle))
        case interfaceT ms2 =>
            simp only [buildTypeCode] at h
            rcases hrec : getTypeCode env fuel (.pointer (.interfaceT ms2)) mod1 with _ | p
            · rw [hrec] at h; cases h
            · rw [hrec] at h
              simp only [Option.map_some', Option.some.injEq, Prod.mk.injEq] at h
              have hm : mod' = (finishTypeCode env (.interfaceT ms2) ([p.1]) p.2).2 := by rw [h]
              rw [hm]
              exact countLe_finishTypeCode env (.interfaceT ms2) ([p.1]) p.2 n (hms _)
                (ihG _ _ _ _ hrec hle)
        case signature ps rs =>
            simp only [buildTypeCode] at h
            rcases hrec : getTypeCode env fuel (.pointer (.signature ps rs)) mod1 with _ | p
            · rw [hrec] at h; cases h
            · rw [hrec] at h
              simp only [Option.map_some', Option.some.injEq, Prod.mk.injEq] at h
              have hm : mod' = (finishTypeCode env (.signature ps rs) ([p.1]) p.2).2 := by rw [h]
              rw [hm]
              exact countLe_finishTypeCode env (.signature ps rs) ([p.1]) p.2 n (hms _)
                (ihG _ _ _ _ hrec hle)
      · intro gname fs mod r mod' hg h hle
        cases fs with
        | nil =>
            simp only [structFieldRecs, Option.some.injEq, Prod.mk.injEq] at h
            rw [← h.2]
            exact hle
        | cons f fs =>
            simp only [structFieldRecs] at h
            split at h
            · cases h
            · rename_i ft mod2 heq
              rcases hrec : structFieldRecs env fuel gname fs mod2 with _ | q
              · rw [hrec] at h; cases h
              · rw [hrec] at h
                simp only [Option.map_some', Option.some.injEq, Prod.mk.injEq] at h
                rw [← h.2]
                refine ihS _ _ _ _ _ hg hrec (ihG _ _ _ _ heq ?_)
                rw [Module.countGlobal_addGlobal, if_neg fun hc => hg f hc.symm]
                omega

/-- C2: descriptor synthesis is memoized under the descriptor symbol
name — once `getTypeCode` has run for a type, running it again answers
the same address without touching the module, and the module holds
exactly one descriptor global for that type's key (given that the
descriptor name collides with no struct-field data name and no
method-set name). -/
theorem getTypeCode_memoized (env : Env) (fuel fuel2 : Nat) (typ : GoType)
    (mod : Module) (v : CVal) (mod' : Module)
    (hfresh : mod.countGlobal (descName typ) = 0)
    (hdata : ∀ (fs : List StructFieldT) (f : StructFieldT),
      descName typ ≠ descName (.structT fs) ++ '.' :: f.name)
    (hms : ∀ t : GoType, descName typ ≠ env.typeString t ++ str "$methodset")
    (h : getTypeCode env fuel typ mod = some (v, mod')) :
    getTypeCode env (fuel2 + 1) typ mod' = some (v, mod') ∧
    mod'.countGlobal (descName typ) = 1 := by
  obtain ⟨hshape, _, hpres⟩ := getTypeCode_shape_mono env fuel typ mod v mod' h
  constructor
  · simp only [getTypeCode]
    rcases hfind : mod'.findGlobal (descName typ) with _ | g
    · rw [hfind] at hpres; cases hpres
    · rw [hshape]
  · have hle := (descCount env (descName typ) hdata hms fuel).1 typ mod v mod' h
      (by omega)
    have hpos := Module.one_le_countGlobal mod' (descName typ) hpres
    omega

/-- Witness for C2: synthesizing the descriptor for `int` on the empty
module, then asking for it again with any fuel left, answers the same
address on the unchanged module, which holds the descriptor exactly
once. -/
theorem getTypeCode_memoized_witness :
    Module.countGlobal {} (descName (.basic .int)) = 0 ∧
    ∃ v mod', getTypeCode envA 10 (.basic .int) {} = some (v, mod') ∧
      getTypeCode envA 6 (.basic .int) mod' = some (v, mod') ∧
      mod'.countGlobal (descName (.basic .int)) = 1 := by
  refine ⟨rfl, ?_⟩
  obtain ⟨h1, h2⟩ := getTypeCode_memoized envA 10 5 (.basic .int) {} _ _ rfl
    (fun fs f hc => by
      have h19 := congrArg (fun l => l.get? 19) hc
      simp only [descName, getTypeCodeName, str] at h19
      simp [List.get?_append_right, List.append_assoc] at h19)
    (fun t hc => by simp [envA, descName, str] at hc)
    rfl
  exact ⟨_, _, rfl, h1, h2⟩

/-- An LLVM value as `createTypeAssert` sees it: an instruction result
register, a constant null / undef of a type, a reference to a named
global, or a constant struct. -/
inductive LVal where
  | reg (n : Nat)
  | constNull (t : GoType)
  | undef (t : GoType)
  | globalRef (n : Str)
  | constStruct (vs : List LVal)

/-- The instructions `createTypeAssert` emits.  `unpack` stands for the
whole `extractValueFromInterface` helper (the cast of the interface's
value word to the asserted layout). -/
inductive Inst where
  | extractValue (res : LVal) (agg : LVal) (idx : Nat) (name : Str)
  | call (res : LVal) (fn : Str) (args : List LVal) (name : Str)
  | condBr (cond : LVal) (thenB elseB : Str)
  | br (target : Str)
  | phi (res : LVal) (t : GoType) (name : Str) (incoming : List (LVal × Str))
  | insertValue (res : LVal) (agg v : LVal) (idx : Nat) (name : Str)
  | unpack (res : LVal) (itf : LVal) (t : GoType)

/-- Append an instruction to the first block with the given name. -/
def replaceFirstB (l : List (Str × List Inst)) (n : Str) (i : Inst) :
    List (Str × List Inst) :=
  match l with
  | [] => []
  | (k, is) :: rest =>
      if k == n then (k, is ++ [i]) :: rest else (k, is) :: replaceFirstB rest n i

/-- The builder state of compiler/compiler.go as `createTypeAssert` uses
it: the module, the function's blocks with their instructions in
emission order, the current insert block and the next fresh register.
(The `blockExits` bookkeeping for phi predecessors of *other*
instructions is not modelled.) -/
structure Builder where
  mod : Module
  blocks : List (Str × List Inst)
  cur : Str
  fresh : Nat

/-- Emit an instruction at the end of the current block. -/
def Builder.emit (b : Builder) (i : Inst) : Builder :=
  { b with blocks := replaceFirstB b.blocks b.cur i }

/-- Emit a value-producing instruction: its result is the next fresh
register. -/
def Builder.emitV (b : Builder) (mk : LVal → Inst) : LVal × Builder :=
  (.reg b.fresh,
    { mod := b.mod, blocks := replaceFirstB b.blocks b.cur (mk (.reg b.fresh)),
      cur := b.cur, fresh := b.fresh + 1 })

/-- insertBasicBlock: a new empty block. -/
def Builder.insertBasicBlock (b : Builder) (n : Str) : Builder :=
  { b with blocks := b.blocks ++ [(n, [])] }

/-- The instruction list of a named block. -/
def Builder.body (b : Builder) (n : Str) : List Inst :=
  ((b.blocks.find? fun q => q.1 == n).map (·.2)).getD []

/-- The name of the `reflect/types.typeid:<TypeKey>` marker global the
concrete branch of `createTypeAssert` compares against. -/
def typeidName (t : GoType) : Str :=
  str "reflect/types.typeid:" ++ getTypeCodeName t

/-- The comma-ok condition of `createTypeAssert`: for an interface
asserted type, a call to the `.$typeassert` implements function on the
type number; for a concrete asserted type, the `reflect/types.typeid:`
constant i8 marker global is looked up or created and
`runtime.typeAssert` is called on the type number and that global. -/
def assertCond (env : Env) (assertedType : GoType) (actualTypeNum : LVal)
    (b : Builder) : Option (LVal × Builder) :=
  if (underlyingT env assertedType).isInterface then
    match getInterfaceImplementsFunc env assertedType b.mod with
    | none => none
    | some (fn, mod') =>
        some (({ b with mod := mod' }).emitV fun r =>
          .call r fn [actualTypeNum] [])
  else
    match b.mod.findGlobal (typeidName assertedType) with
    | some _ =>
        some (b.emitV fun r => .call r (str "runtime.typeAssert")
          [actualTypeNum, .globalRef (typeidName assertedType)] (str "typecode"))
    | none =>
        some (({ b with
            mod := b.mod.addGlobal (typeidName assertedType)
              { init := none, linkage := .external, isConstant := true,
                unnamedAddr := false, align := none } }).emitV fun r =>
          .call r (str "runtime.typeAssert")
            [actualTypeNum, .globalRef (typeidName assertedType)] (str "typecode"))

/-- createTypeAssert of compiler/compiler.go: extract the type number,
compute the comma-ok condition, branch on it into a fresh ok block and a
fresh next block, unpack the interface value (or reuse it for interface
asserts) only inside the ok block, and merge in the next block with a
two-input phi whose fall-through input is the zero value of the asserted
type; a comma-ok expression wraps the phi and the condition into a
tuple, otherwise `runtime.interfaceTypeAssert` traps on failure. -/
def createTypeAssert (env : Env) (assertedType : GoType) (itf : LVal)
    (commaOk : Bool) (b0 : Builder) : Option (LVal × Builder) :=
  let p1 := b0.emitV fun r => .extractValue r itf 0 (str "interface.type")
  match assertCond env assertedType p1.1 p1.2 with
  | none => none
  | some (ok, b1) =>
      let prevBlock := b1.cur
      let b2 := (b1.insertBasicBlock
        (str "typeassert.ok")).insertBasicBlock (str "typeassert.next")
      let b3 := b2.emit (.condBr ok (str "typeassert.ok") (str "typeassert.next"))
      let b4 : Builder := { b3 with cur := str "typeassert.ok" }
      let p2 : LVal × Builder :=
        if (underlyingT env assertedType).isInterface then (itf, b4)
        else b4.emitV fun r => .unpack r itf assertedType
      let b5 := p2.2.emit (.br (str "typeassert.next"))
      let b6 : Builder := { b5 with cur := str "typeassert.next" }
      let p3 := b6.emitV fun r => .phi r assertedType (str "typeassert.value")
        [(.constNull assertedType, prevBlock), (p2.1, str "typeassert.ok")]
      if commaOk then
        let p4 := p3.2.emitV fun r => .insertValue r
          (.constStruct [.undef assertedType, .undef (.basic .bool)]) p3.1 0 []
        let p5 := p4.2.emitV fun r => .insertValue r p4.1 ok 1 []
        some (p5.1, p5.2)
      else
        let p6 := p3.2.emitV fun r =>
          .call r (str "runtime.interfaceTypeAssert") [ok] []
        some (p3.1, p6.2)

/-- C6: for a concrete asserted type, the emitted control flow is
`prev: extract; typeAssert call; condBr ok-block next-block` with the
ok block holding exactly the interface unpack and a branch to the merge,
and the merge block starting with a two-input phi whose input along the
failure edge (from the previous block) is the zero value of the asserted
type and whose other input is the ok block's unpack result; the unpack
instruction appears in no other block. -/
theorem createTypeAssert_concrete_spec (env : Env) (assertedType : GoType)
    (itf : LVal) (ck : Bool) (mod : Module) (p : Str) (k : Nat)
    (res : LVal) (b1 : Builder)
    (hAT : (underlyingT env assertedType).isInterface = false)
    (hp1 : p ≠ str "typeassert.ok") (hp2 : p ≠ str "typeassert.next")
    (h : createTypeAssert env assertedType itf ck ⟨mod, [(p, [])], p, k⟩ =
      some (res, b1)) :
    b1.body p =
      [.extractValue (.reg k) itf 0 (str "interface.type"),
       .call (.reg (k + 1)) (str "runtime.typeAssert")
         [.reg k, .globalRef (typeidName assertedType)] (str "typecode"),
       .condBr (.reg (k + 1)) (str "typeassert.ok") (str "typeassert.next")] ∧
    b1.body (str "typeassert.ok") =
      [.unpack (.reg (k + 2)) itf assertedType, .br (str "typeassert.next")] ∧
    (b1.body (str "typeassert.next")).head? =
      some (.phi (.reg (k + 3)) assertedType (str "typeassert.value")
        [(.constNull assertedType, p), (.reg (k + 2), str "typeassert.ok")]) ∧
    (∀ i ∈ b1.body (str "typeassert.next"), ∀ r it t, i ≠ .unpack r it t) := by
  have hb1 : (p == str "typeassert.ok") = false := beq_eq_false_iff_ne.2 hp1
  have hb2 : (p == str "typeassert.next") = false := beq_eq_false_iff_ne.2 hp2
  have hb3 : (str "typeassert.ok" == str "typeassert.next") = false := by decide
  simp only [createTypeAssert, assertCond, hAT, Bool.false_eq_true, if_false,
    Builder.emitV, Builder.emit, Builder.insertBasicBlock, replaceFirstB,
    beq_self_eq_true, if_true, if_false, hb1, hb2, hb3] at h
  rcases hfind : mod.findGlobal (typeidName assertedType) with _ | g <;>
    rw [hfind] at h <;>
    [skip; skip] <;>
    cases ck <;>
    simp only [Bool.false_eq_true, if_false, if_true, Option.some.injEq,
      Prod.mk.injEq] at h <;>
    obtain ⟨hres, hb⟩ := h <;>
    subst hb <;>
    simp [Builder.body, Builder.emitV, Builder.emit, Builder.insertBasicBlock,
      replaceFirstB, List.find?, hb1, hb2, hb3]

/-- Witness for C6: asserting the concrete type `int` from a fresh entry
block. -/
theorem createTypeAssert_concrete_spec_witness :
    (underlyingT envA (.basic .int)).isInterface = false ∧
    str "entry" ≠ str "typeassert.ok" ∧
    ∃ res b1, createTypeAssert envA (.basic .int) (.reg 99) true
      ⟨{}, [(str "entry", [])], str "entry", 0⟩ = some (res, b1) ∧
      b1.body (str "typeassert.ok") =
        [.unpack (.reg 2) (.reg 99) (.basic .int), .br (str "typeassert.next")] := by
  refine ⟨rfl, by decide, ?_⟩
  obtain ⟨h1, h2, h3, h4⟩ := createTypeAssert_concrete_spec envA (.basic .int)
    (.reg 99) true {} (str "entry") 0 _ _ rfl (by decide) (by decide) rfl
  exact ⟨_, _, rfl, h2⟩

/-- A character of a Go identifier (letters, digits, underscore). -/
def identChar (c : Char) : Bool :=
  c.isAlpha || c.isDigit || c = '_'

/-- A character of a fully qualified name or package path: identifier
characters plus the dot and slash separators. -/
def pathChar (c : Char) : Bool :=
  identChar c || c = '.' || c = '/'

/-- A well-formed Go identifier: nonempty, identifier characters only. -/
def wfIdent (s : Str) : Bool :=
  !s.isEmpty && s.all identChar

/-- A well-formed package path (possibly empty). -/
def wfPath (s : Str) : Bool :=
  s.all pathChar

/-- A well-formed fully qualified type name: nonempty path. -/
def wfPathNE (s : Str) : Bool :=
  !s.isEmpty && s.all pathChar

/-- A struct tag that contains no backquote. -/
def noTick (s : Str) : Bool :=
  s.all fun c => !(c = '\x60')

mutual
/-- Well-formed source types: identifiers and paths are well formed and
struct tags are backquote-free.  This is the domain on which the TypeKey
encoding is unambiguous. -/
def wfb : GoType → Bool
  | .basic _ => true
  | .named n => wfPathNE n
  | .chan _ e => wfb e
  | .slice e => wfb e
  | .pointer e => wfb e
  | .array _ e => wfb e
  | .mapT k v => wfb k && wfb v
  | .structT fs => wfFields fs
  | .interfaceT ms => wfMethods ms
  | .signature ps rs => wfbs ps && wfbs rs

/-- Well-formedness of a list of types. -/
def wfbs : List GoType → Bool
  | [] => true
  | t :: ts => wfb t && wfbs ts

/-- Well-formedness of struct fields. -/
def wfFields : List StructFieldT → Bool
  | [] => true
  | .mk _ n t tg :: fs => wfIdent n && noTick tg && wfb t && wfFields fs

/-- Well-formedness of interface methods. -/
def wfMethods : List IMethodT → Bool
  | [] => true
  | .mk n p sg :: ms => wfIdent n && wfPath p && wfb sg && wfMethods ms
end

mutual
/-- The canonical representative of a type under the TypeKey encoding:
channel directions are erased (the key never records them) and the
package path of an exported interface method is erased (the key never
records it). -/
def canonKey : GoType → GoType
  | .basic b => .basic b
  | .named n => .named n
  | .chan _ e => .chan .sendRecv (canonKey e)
  | .slice e => .slice (canonKey e)
  | .pointer e => .pointer (canonKey e)
  | .array n e => .array n (canonKey e)
  | .mapT k v => .mapT (canonKey k) (canonKey v)
  | .structT fs => .structT (canonFields fs)
  | .interfaceT ms => .interfaceT (canonMethods ms)
  | .signature ps rs => .signature (canonKeys ps) (canonKeys rs)

/-- canonKey over a list of types. -/
def canonKeys : List GoType → List GoType
  | [] => []
  | t :: ts => canonKey t :: canonKeys ts

/-- canonKey over struct fields. -/
def canonFields : List StructFieldT → List StructFieldT
  | [] => []
  | .mk e n t tg :: fs => .mk e n (canonKey t) tg :: canonFields fs

/-- canonKey over interface methods: exported methods lose their package
path. -/
def canonMethods : List IMethodT → List IMethodT
  | [] => []
  | .mk n p sg :: ms =>
      .mk n (if isExported n then [] else p) (canonKey sg) :: canonMethods ms
end

/-- A character that terminates a name inside a TypeKey: the list
separator, the closing brace and the backquote. -/
def isTermChar (c : Char) : Bool :=
  c = ',' || c = '\x7d' || c = '\x60'

/-- A tail that may legally follow a complete TypeKey: empty, or starting
with a terminator character. -/
def goodTail : Str → Prop
  | [] => True
  | c :: _ => isTermChar c = true

/-- Strip an expected prefix. -/
def stripPre : Str → Str → Option Str
  | [], s => some s
  | _ :: _, [] => none
  | c :: p, d :: s => if c = d then stripPre p s else none

/-- Split at the first terminator character. -/
def takeName : Str → Str × Str
  | [] => ([], [])
  | c :: cs =>
      if isTermChar c then ([], c :: cs)
      else ((c :: (takeName cs).1), (takeName cs).2)

/-- Split at the first colon. -/
def takeLabel : Str → Str × Str
  | [] => ([], [])
  | c :: cs =>
      if c = ':' then ([], c :: cs)
      else ((c :: (takeLabel cs).1), (takeLabel cs).2)

/-- Split at the first dot. -/
def takeDot : Str → Str × Str
  | [] => ([], [])
  | c :: cs =>
      if c = '.' then ([], c :: cs)
      else ((c :: (takeDot cs).1), (takeDot cs).2)

/-- Split at the first backquote. -/
def takeTick : Str → Str × Str
  | [] => ([], [])
  | c :: cs =>
      if c = '\x60' then ([], c :: cs)
      else ((c :: (takeTick cs).1), (takeTick cs).2)

/-- Split a method label at its last dot, if any. -/
def splitLastDot (s : Str) : Option (Str × Str) :=
  match takeDot s.reverse with
  | (_, []) => none
  | (nrev, _ :: prev) => some (prev.reverse, nrev.reverse)

/-- Decimal digits back to a number. -/
def charsToNat (s : Str) : Nat :=
  s.foldl (fun a c => a * 10 + (c.toNat - 48)) 0

/-- The inverse of the `basicTypeNames` table. -/
def charsToBasic (s : Str) : Option BasicKind :=
  if s = str "bool" then some .bool
  else if s = str "int" then some .int
  else if s = str "int8" then some .int8
  else if s = str "int16" then some .int16
  else if s = str "int32" then some .int32
  else if s = str "int64" then some .int64
  else if s = str "uint" then some .uint
  else if s = str "uint8" then some .uint8
  else if s = str "uint16" then some .uint16
  else if s = str "uint32" then some .uint32
  else if s = str "uint64" then some .uint64
  else if s = str "uintptr" then some .uintptr
  else if s = str "float32" then some .float32
  else if s = str "float64" then some .float64
  else if s = str "complex64" then some .complex64
  else if s = str "complex128" then some .complex128
  else if s = str "string" then some .string
  else if s = str "unsafe.Pointer" then some .unsafePointer
  else none

/-- Rebuild an interface method from its key label: a label without a
dot is a bare (exported) name, otherwise the part after the last dot is
the name and the rest the package path. -/
def mkMethod (lbl : Str) (sg : GoType) : IMethodT :=
  match splitLastDot lbl with
  | none => .mk lbl [] sg
  | some (p, nm) => .mk nm p sg

/-- An embedded-field marker, if present. -/
def parseFlag : Str → Bool × Str
  | '#' :: r => (true, r)
  | s => (false, s)

/-- An optional backquoted tag. -/
def parseTag : Str → Option (Str × Str)
  | '\x60' :: r =>
      match takeTick r with
      | (tg, '\x60' :: r2) => some (tg, r2)
      | _ => none
  | s => some ([], s)

mutual
/-- A fuel-bounded parser for the TypeKey encoding, returning the
canonical parsed type and the unconsumed tail.  It exists only to prove
that the encoding is unambiguous on well-formed types: running it on
`getTypeCodeName t` recovers `canonKey t`. -/
def parseKey : Nat → Str → Option (GoType × Str)
  | 0, _ => none
  | fuel + 1, s =>
    match stripPre (str "named:") s with
    | some r => some (.named (takeName r).1, (takeName r).2)
    | none =>
    match stripPre (str "array:") s with
    | some r =>
        match takeLabel r with
        | (ds, ':' :: r2) =>
            (parseKey fuel r2).map fun q => (.array (charsToNat ds) q.1, q.2)
        | _ => none
    | none =>
    match stripPre (str "basic:") s with
    | some r =>
        match charsToBasic (takeName r).1 with
        | some b => some (.basic b, (takeName r).2)
        | none => none
    | none =>
    match stripPre (str "chan:") s with
    | some r => (parseKey fuel r).map fun q => (.chan .sendRecv q.1, q.2)
    | none =>
    match stripPre (str "interface:") s with
    | some ('\x7b' :: r) =>
        (parseMethodList fuel r).map fun q => (.interfaceT q.1, q.2)
    | some _ => none
    | none =>
    match stripPre (str "map:") s with
    | some ('\x7b' :: r) =>
        match parseKey fuel r with
        | some (k, ',' :: r2) =>
            match parseKey fuel r2 with
            | some (v, '\x7d' :: r3) => some (.mapT k v, r3)
            | _ => none
        | _ => none
    | some _ => none
    | none =>
    match stripPre (str "pointer:") s with
    | some r => (parseKey fuel r).map fun q => (.pointer q.1, q.2)
    | none =>
    match stripPre (str "func:") s with
    | some ('\x7b' :: r) =>
        match parseKeyList fuel r with
        | some (ps, '\x7b' :: r2) =>
            (parseKeyList fuel r2).map fun q => (.signature ps q.1, q.2)
        | _ => none
    | some _ => none
    | none =>
    match stripPre (str "slice:") s with
    | some r => (parseKey fuel r).map fun q => (.slice q.1, q.2)
    | none =>
    match stripPre (str "struct:") s with
    | some ('\x7b' :: r) =>
        (parseFieldList fuel r).map fun q => (.structT q.1, q.2)
    | some _ => none
    | none => none

/-- A brace-terminated comma-separated list of TypeKeys (the closing
brace is consumed). -/
def parseKeyList : Nat → Str → Option (List GoType × Str)
  | 0, _ => none
  | fuel + 1, s =>
    match s with
    | '\x7d' :: r => some ([], r)
    | _ =>
        match parseKey fuel s with
        | some (t, ',' :: r2) =>
            (parseKeyList fuel r2).map fun q => (t :: q.1, q.2)
        | some (t, '\x7d' :: r2) => some ([t], r2)
        | _ => none

/-- A brace-terminated comma-separated list of struct-field elements. -/
def parseFieldList : Nat → Str → Option (List StructFieldT × Str)
  | 0, _ => none
  | fuel + 1, s =>
    match s with
    | '\x7d' :: r => some ([], r)
    | _ =>
        match takeLabel (parseFlag s).2 with
        | (nm, ':' :: r2) =>
            match parseKey fuel r2 with
            | some (ft, r3) =>
                match parseTag r3 with
                | some (tg, ',' :: r4) =>
                    (parseFieldList fuel r4).map fun q =>
                      (.mk (parseFlag s).1 nm ft tg :: q.1, q.2)
                | some (tg, '\x7d' :: r4) =>
                    some ([.mk (parseFlag s).1 nm ft tg], r4)
                | _ => none
            | none => none
        | _ => none

/-- A brace-terminated comma-separated list of interface-method
elements. -/
def parseMethodList : Nat → Str → Option (List IMethodT × Str)
  | 0, _ => none
  | fuel + 1, s =>
    match s with
    | '\x7d' :: r => some ([], r)
    | _ =>
        match takeLabel s with
        | (lbl, ':' :: r2) =>
            match parseKey fuel r2 with
            | some (sg, ',' :: r3) =>
                (parseMethodList fuel r3).map fun q => (mkMethod lbl sg :: q.1, q.2)
            | some (sg, '\x7d' :: r3) => some ([mkMethod lbl sg], r3)
            | _ => none
        | _ => none
end

/-- Stripping a prefix off itself. -/
theorem stripPre_self (p s : Str) : stripPre p (p ++ s) = some s := by
  induction p with
  | nil => rfl
  | cons c p ih => simp [stripPre, ih]

/-- takeName splits a terminator-free name off a good tail. -/
theorem takeName_append (n rest : Str) (hn : ∀ c ∈ n, isTermChar c = false)
    (ht : goodTail rest) : takeName (n ++ rest) = (n, rest) := by
  induction n with
  | nil =>
      cases rest with
      | nil => rfl
      | cons c cs => simp [takeName, show isTermChar c = true from ht]
  | cons c n ih =>
      have hc := hn c (List.mem_cons_self c n)
      simp [takeName, hc, ih fun d hd => hn d (List.mem_cons_of_mem c hd)]

/-- takeLabel splits a colon-free label off a colon. -/
theorem takeLabel_append (n rest : Str) (hn : ∀ c ∈ n, c ≠ ':') :
    takeLabel (n ++ ':' :: rest) = (n, ':' :: rest) := by
  induction n with
  | nil => simp [takeLabel]
  | cons c n ih =>
      have hc := hn c (List.mem_cons_self c n)
      simp [takeLabel, hc, ih fun d hd => hn d (List.mem_cons_of_mem c hd)]

/-- takeDot splits a dot-free part off a dot. -/
theorem takeDot_append (a r : Str) (ha : ∀ c ∈ a, c ≠ '.') :
    takeDot (a ++ '.' :: r) = (a, '.' :: r) := by
  induction a with
  | nil => simp [takeDot]
  | cons c a ih =>
      have hc := ha c (List.mem_cons_self c a)
      simp [takeDot, hc, ih fun d hd => ha d (List.mem_cons_of_mem c hd)]

/-- takeDot on a dot-free string consumes everything. -/
theorem takeDot_all (a : Str) (ha : ∀ c ∈ a, c ≠ '.') : takeDot a = (a, []) := by
  induction a with
  | nil => rfl
  | cons c a ih =>
      have hc := ha c (List.mem_cons_self c a)
      simp [takeDot, hc, ih fun d hd => ha d (List.mem_cons_of_mem c hd)]

/-- takeTick splits a backquote-free part off a backquote. -/
theorem takeTick_append (a r : Str) (ha : ∀ c ∈ a, c ≠ '\x60') :
    takeTick (a ++ '\x60' :: r) = (a, '\x60' :: r) := by
  induction a with
  | nil => simp [takeTick]
  | cons c a ih =>
      have hc := ha c (List.mem_cons_self c a)
      simp [takeTick, hc, ih fun d hd => ha d (List.mem_cons_of_mem c hd)]

/-- A dot-free label has no last dot. -/
theorem splitLastDot_none (a : Str) (ha : ∀ c ∈ a, c ≠ '.') :
    splitLastDot a = none := by
  unfold splitLastDot
  rw [takeDot_all a.reverse fun c hc => ha c (List.mem_reverse.1 hc)]

/-- The last dot of `p ++ "." ++ n` with `n` dot-free splits it back into
`p` and `n`. -/
theorem splitLastDot_append (p n : Str) (hn : ∀ c ∈ n, c ≠ '.') :
    splitLastDot (p ++ '.' :: n) = some (p, n) := by
  unfold splitLastDot
  rw [show (p ++ '.' :: n).reverse = n.reverse ++ '.' :: p.reverse by simp]
  rw [takeDot_append _ _ fun c hc => hn c (List.mem_reverse.1 hc)]
  simp

/-- Identifier characters are neither terminators nor any of the
structural punctuation of the encoding. -/
theorem identChar_facts (c : Char) (h : identChar c = true) :
    isTermChar c = false ∧ c ≠ ':' ∧ c ≠ '.' ∧ c ≠ '#' ∧ c ≠ '\x7d' := by
  have hne : ∀ d : Char, identChar d = false → c ≠ d := fun d hd hcd => by
    rw [hcd] at h; rw [h] at hd; cases hd
  have h1 := hne ',' (by decide)
  have h2 := hne '\x7d' (by decide)
  have h3 := hne '\x60' (by decide)
  exact ⟨by simp [isTermChar, h1, h2, h3], hne ':' (by decide),
    hne '.' (by decide), hne '#' (by decide), h2⟩

/-- Path characters are neither terminators nor colons nor braces. -/
theorem pathChar_facts (c : Char) (h : pathChar c = true) :
    isTermChar c = false ∧ c ≠ ':' ∧ c ≠ '\x7d' := by
  have hne : ∀ d : Char, pathChar d = false → c ≠ d := fun d hd hcd => by
    rw [hcd] at h; rw [h] at hd; cases hd
  have h1 := hne ',' (by decide)
  have h2 := hne '\x7d' (by decide)
  have h3 := hne '\x60' (by decide)
  exact ⟨by simp [isTermChar, h1, h2, h3], hne ':' (by decide), h2⟩

/-- Decimal digits of `strconv.FormatInt` are in the digit range. -/
theorem natToChars_digits (k : Nat) :
    ∀ c ∈ natToChars k, 48 ≤ c.toNat ∧ c.toNat < 58 := by
  induction k using Nat.strong_induction_on with
  | _ k ih =>
      rw [natToChars]
      by_cases h : k < 10
      · rw [dif_pos h]
        intro c hc
        simp only [List.mem_singleton] at hc
        subst hc
        interval_cases k <;> decide
      · rw [dif_neg h]
        intro c hc
        rcases List.mem_append.1 hc with h1 | h2
        · exact ih (k / 10) (Nat.div_lt_self (by omega) (by omega)) c h1
        · simp only [List.mem_singleton] at h2
          subst h2
          have hm : k % 10 < 10 := Nat.mod_lt _ (by omega)
          generalize hg : k % 10 = m at hm
          interval_cases m <;> decide

/-- A digit is not a colon. -/
theorem natToChars_ne_colon (k : Nat) : ∀ c ∈ natToChars k, c ≠ ':' := by
  intro c hc heq
  have := natToChars_digits k c hc
  rw [heq] at this
  exact absurd this (by decide)

/-- Parsing the decimal digits back gives the number. -/
theorem charsToNat_natToChars (k : Nat) : charsToNat (natToChars k) = k := by
  induction k using Nat.strong_induction_on with
  | _ k ih =>
      rw [natToChars]
      by_cases h : k < 10
      · rw [dif_pos h]
        interval_cases k <;> decide
      · rw [dif_neg h]
        unfold charsToNat
        rw [List.foldl_append]
        have hdiv := ih (k / 10) (Nat.div_lt_self (by omega) (by omega))
        unfold charsToNat at hdiv
        rw [hdiv]
        simp only [List.foldl]
        have hm : k % 10 < 10 := Nat.mod_lt _ (by omega)
        have hchar : (Char.ofNat (48 + k % 10)).toNat = 48 + k % 10 := by
          generalize hg : k % 10 = m at hm
          interval_cases m <;> decide
        rw [hchar]
        omega

/-- Basic type names carry no terminator characters. -/
theorem basicTypeNames_term (b : BasicKind) :
    ∀ c ∈ basicTypeNames b, isTermChar c = false := by
  cases b <;> decide

/-- The `basicTypeNames` table is inverted by `charsToBasic`. -/
theorem charsToBasic_names (b : BasicKind) :
    charsToBasic (basicTypeNames b) = some b := by
  cases b <;> rfl

/-- Every TypeKey starts with a letter, never with a closing brace. -/
theorem key_head (t : GoType) :
    ∃ c s', getTypeCodeName t = c :: s' ∧ c ≠ '\x7d' := by
  cases t <;> exact ⟨_, _, rfl, by decide⟩

/-- The named branch of the parser. -/
theorem parseKey_named (F : Nat) (s : Str) :
    parseKey (F + 1) (str "named:" ++ s) =
      some (.named (takeName s).1, (takeName s).2) := rfl

/-- The array branch of the parser. -/
theorem parseKey_array (F : Nat) (s : Str) :
    parseKey (F + 1) (str "array:" ++ s) =
      match takeLabel s with
      | (ds, ':' :: r2) =>
          (parseKey F r2).map fun q => (.array (charsToNat ds) q.1, q.2)
      | _ => none := rfl

/-- The basic branch of the parser. -/
theorem parseKey_basic (F : Nat) (s : Str) :
    parseKey (F + 1) (str "basic:" ++ s) =
      match charsToBasic (takeName s).1 with
      | some b => some (.basic b, (takeName s).2)
      | none => none := rfl

/-- The chan branch of the parser. -/
theorem parseKey_chan (F : Nat) (s : Str) :
    parseKey (F + 1) (str "chan:" ++ s) =
      (parseKey F s).map fun q => (.chan .sendRecv q.1, q.2) := rfl

/-- The interface branch of the parser. -/
theorem parseKey_interface (F : Nat) (r : Str) :
    parseKey (F + 1) (str "interface:" ++ '\x7b' :: r) =
      (parseMethodList F r).map fun q => (.interfaceT q.1, q.2) := rfl

/-- The map branch of the parser. -/
theorem parseKey_map (F : Nat) (r : Str) :
    parseKey (F + 1) (str "map:" ++ '\x7b' :: r) =
      match parseKey F r with
      | some (k, ',' :: r2) =>
          match parseKey F r2 with
          | some (v, '\x7d' :: r3) => some (.mapT k v, r3)
          | _ => none
      | _ => none := rfl

/-- The pointer branch of the parser. -/
theorem parseKey_pointer (F : Nat) (s : Str) :
    parseKey (F + 1) (str "pointer:" ++ s) =
      (parseKey F s).map fun q => (.pointer q.1, q.2) := rfl

/-- The func branch of the parser. -/
theorem parseKey_func (F : Nat) (r : Str) :
    parseKey (F + 1) (str "func:" ++ '\x7b' :: r) =
      match parseKeyList F r with
      | some (ps, '\x7b' :: r2) =>
          (parseKeyList F r2).map fun q => (.signature ps q.1, q.2)
      | _ => none := rfl

/-- The slice branch of the parser. -/
theorem parseKey_slice (F : Nat) (s : Str) :
    parseKey (F + 1) (str "slice:" ++ s) =
      (parseKey F s).map fun q => (.slice q.1, q.2) := rfl

/-- The struct branch of the parser. -/
theorem parseKey_struct (F : Nat) (r : Str) :
    parseKey (F + 1) (str "struct:" ++ '\x7b' :: r) =
      (parseFieldList F r).map fun q => (.structT q.1, q.2) := rfl

/-- The element step of the key-list parser. -/
def parseKeyListStep (fuel : Nat) (s : Str) : Option (List GoType × Str) :=
  match parseKey fuel s with
  | some (t, ',' :: r2) => (parseKeyList fuel r2).map fun q => (t :: q.1, q.2)
  | some (t, '\x7d' :: r2) => some ([t], r2)
  | _ => none

/-- The element step of the field-list parser. -/
def parseFieldListStep (fuel : Nat) (s : Str) : Option (List StructFieldT × Str) :=
  match takeLabel (parseFlag s).2 with
  | (nm, ':' :: r2) =>
      match parseKey fuel r2 with
      | some (ft, r3) =>
          match parseTag r3 with
          | some (tg, ',' :: r4) =>
              (parseFieldList fuel r4).map fun q =>
                (.mk (parseFlag s).1 nm ft tg :: q.1, q.2)
          | some (tg, '\x7d' :: r4) =>
              some ([.mk (parseFlag s).1 nm ft tg], r4)
          | _ => none
      | none => none
  | _ => none

/-- The element step of the method-list parser. -/
def parseMethodListStep (fuel : Nat) (s : Str) : Option (List IMethodT × Str) :=
  match takeLabel s with
  | (lbl, ':' :: r2) =>
      match parseKey fuel r2 with
      | some (sg, ',' :: r3) =>
          (parseMethodList fuel r3).map fun q => (mkMethod lbl sg :: q.1, q.2)
      | some (sg, '\x7d' :: r3) => some ([mkMethod lbl sg], r3)
      | _ => none
  | _ => none

/-- An empty key list. -/
theorem parseKeyList_nil (F : Nat) (r : Str) :
    parseKeyList (F + 1) ('\x7d' :: r) = some ([], r) := rfl

/-- A nonempty key list starts with an element. -/
theorem parseKeyList_cons (F : Nat) (c : Char) (s : Str) (hc : c ≠ '\x7d') :
    parseKeyList (F + 1) (c :: s) = parseKeyListStep F (c :: s) := by
  simp only [parseKeyList]
  split
  · rename_i r heq
    injection heq with h1 h2
    exact absurd h1 hc
  · rfl

/-- An empty field list. -/
theorem parseFieldList_nil (F : Nat) (r : Str) :
    parseFieldList (F + 1) ('\x7d' :: r) = some ([], r) := rfl

/-- A nonempty field list starts with an element. -/
theorem parseFieldList_cons (F : Nat) (c : Char) (s : Str) (hc : c ≠ '\x7d') :
    parseFieldList (F + 1) (c :: s) = parseFieldListStep F (c :: s) := by
  simp only [parseFieldList]
  split
  · rename_i r heq
    injection heq with h1 h2
    exact absurd h1 hc
  · rfl

/-- An empty method list. -/
theorem parseMethodList_nil (F : Nat) (r : Str) :
    parseMethodList (F + 1) ('\x7d' :: r) = some ([], r) := rfl

/-- A nonempty method list starts with an element. -/
theorem parseMethodList_cons (F : Nat) (c : Char) (s : Str) (hc : c ≠ '\x7d') :
    parseMethodList (F + 1) (c :: s) = parseMethodListStep F (c :: s) := by
  simp only [parseMethodList]
  split
  · rename_i r heq
    injection heq with h1 h2
    exact absurd h1 hc
  · rfl

/-- Canonicalization does not change the TypeKey: the encoding reads
neither channel directions nor exported methods' package paths. -/
theorem keyCanonAux : ∀ N : Nat,
    (∀ t : GoType, sizeOf t < N →
      getTypeCodeName (canonKey t) = getTypeCodeName t) ∧
    (∀ ts : List GoType, sizeOf ts < N →
      joinKeys (canonKeys ts) = joinKeys ts) ∧
    (∀ fs : List StructFieldT, sizeOf fs < N →
      joinFieldElems (canonFields fs) = joinFieldElems fs) ∧
    (∀ ms : List IMethodT, sizeOf ms < N →
      joinMethodElems (canonMethods ms) = joinMethodElems ms) := by
  intro N
  induction N with
  | zero => refine ⟨?_, ?_, ?_, ?_⟩ <;> (intro x h; omega)
  | succ N ih =>
      obtain ⟨ihT, ihL, ihF, ihM⟩ := ih
      refine ⟨?_, ?_, ?_, ?_⟩
      · intro t hsz
        cases t with
        | basic b => rfl
        | named n => rfl
        | chan d e =>
            simp only [canonKey, getTypeCodeName]
            rw [ihT e (by simp at hsz; omega)]
        | slice e =>
            simp only [canonKey, getTypeCodeName]
            rw [ihT e (by simp at hsz; omega)]
        | pointer e =>
            simp only [canonKey, getTypeCodeName]
            rw [ihT e (by simp at hsz; omega)]
        | array n e =>
            simp only [canonKey, getTypeCodeName]
            rw [ihT e (by simp at hsz; omega)]
        | mapT k v =>
            simp only [canonKey, getTypeCodeName]
            rw [ihT k (by simp at hsz; omega), ihT v (by simp at hsz; omega)]
        | structT fs =>
            simp only [canonKey, getTypeCodeName]
            rw [ihF fs (by simp at hsz; omega)]
        | interfaceT ms =>
            simp only [canonKey, getTypeCodeName]
            rw [ihM ms (by simp at hsz; omega)]
        | signature ps rs =>
            simp only [canonKey, getTypeCodeName]
            rw [ihL ps (by simp at hsz; omega), ihL rs (by simp at hsz; omega)]
      · intro ts hsz
        cases ts with
        | nil => rfl
        | cons t ts =>
            cases ts with
            | nil =>
                simp only [canonKeys, joinKeys]
                rw [ihT t (by simp at hsz; omega)]
            | cons t2 ts2 =>
                simp only [canonKeys, joinKeys]
                have h2 := ihL (t2 :: ts2) (by simp at hsz ⊢; omega)
                simp only [canonKeys] at h2
                rw [ihT t (by simp at hsz; omega), h2]
      · intro fs hsz
        cases fs with
        | nil => rfl
        | cons f fs =>
            cases f with
            | mk e n ty tg =>
                cases fs with
                | nil =>
                    simp only [canonFields, joinFieldElems, fieldElem]
                    rw [ihT ty (by simp at hsz; omega)]
                | cons f2 fs2 =>
                    cases f2 with
                    | mk e2 n2 ty2 tg2 =>
                        simp only [canonFields, joinFieldElems, fieldElem]
                        have h2 := ihF (.mk e2 n2 ty2 tg2 :: fs2)
                          (by simp at hsz ⊢; omega)
                        simp only [canonFields] at h2
                        rw [ihT ty (by simp at hsz; omega), h2]
      · intro ms hsz
        cases ms with
        | nil => rfl
        | cons m ms =>
            cases m with
            | mk n p sg =>
                cases ms with
                | nil =>
                    simp only [canonMethods, joinMethodElems, methodElem]
                    by_cases hexp : isExported n = true
                    · simp only [hexp, if_true]
                      rw [ihT sg (by simp at hsz; omega)]
                    · simp only [hexp, if_false, Bool.false_eq_true]
                      rw [ihT sg (by simp at hsz; omega)]
                | cons m2 ms2 =>
                    cases m2 with
                    | mk n2 p2 sg2 =>
                        simp only [canonMethods, joinMethodElems, methodElem]
                        have h2 := ihM (.mk n2 p2 sg2 :: ms2)
                          (by simp at hsz ⊢; omega)
                        simp only [canonMethods] at h2
                        rw [ihT sg (by simp at hsz; omega), h2]
                        by_cases hexp : isExported n = true
                        · simp only [hexp, if_true]
                        · simp only [hexp, if_false, Bool.false_eq_true]

/-- The TypeKey of the canonical representative. -/
theorem key_canon (t : GoType) :
    getTypeCodeName (canonKey t) = getTypeCodeName t :=
  (keyCanonAux (sizeOf t + 1)).1 t (by omega)

/-- parseFlag on a non-marker head. -/
theorem parseFlag_ne (c : Char) (s : Str) (hc : c ≠ '#') :
    parseFlag (c :: s) = (false, c :: s) := by
  simp only [parseFlag]
  split
  · rename_i r heq
    injection heq with h1 h2
    exact absurd h1 hc
  · rfl

/-- The tag branch of parseTag. -/
theorem parseTag_tick (r : Str) : parseTag ('\x60' :: r) =
    match takeTick r with
    | (tg, '\x60' :: r2) => some (tg, r2)
    | _ => none := rfl

/-- parseTag on anything but a backquote. -/
theorem parseTag_other (c : Char) (s : Str) (hc : c ≠ '\x60') :
    parseTag (c :: s) = some ([], c :: s) := by
  simp only [parseTag]
  split
  · rename_i r heq
    injection heq with h1 h2
    exact absurd h1 hc
  · rfl

/-- One struct-field element parses back to its canonical form,
consuming up to the following separator. -/
theorem parseFieldList_elem (F : Nat) (emb : Bool) (nm tg : Str)
    (ty : GoType) (sep : Char) (tail : Str)
    (hnm : wfIdent nm = true) (htg : noTick tg = true)
    (hsep : sep = ',' ∨ sep = '\x7d')
    (hkey : ∀ Y : Str, goodTail Y →
      parseKey F (getTypeCodeName ty ++ Y) = some (canonKey ty, Y)) :
    parseFieldList (F + 1) (fieldElem (.mk emb nm ty tg) ++ sep :: tail) =
      (if sep = ',' then
        (parseFieldList F tail).map fun q =>
          (.mk emb nm (canonKey ty) tg :: q.1, q.2)
      else some ([.mk emb nm (canonKey ty) tg], tail)) := by
  rw [wfIdent, Bool.and_eq_true, List.all_eq_true] at hnm
  obtain ⟨hne, hall⟩ := hnm
  cases nm with
  | nil => simp at hne
  | cons n0 nm' =>
  have hid0 := identChar_facts n0 (hall n0 (List.mem_cons_self _ _))
  have hlbl : ∀ c ∈ n0 :: nm', c ≠ ':' :=
    fun c hc => (identChar_facts c (hall c hc)).2.1
  have htick : ∀ c ∈ tg, c ≠ '\x60' := by
    intro c hc heq
    rw [noTick, List.all_eq_true] at htg
    have h2 := htg c hc
    rw [heq] at h2
    exact absurd h2 (by decide)
  have hterm : goodTail (sep :: tail) := by
    rcases hsep with h | h <;> subst h <;> exact rfl
  by_cases htg0 : tg = []
  · subst htg0
    cases emb with
    | false =>
        rw [show fieldElem (.mk false (n0 :: nm') ty []) ++ sep :: tail =
          n0 :: (nm' ++ ':' :: (getTypeCodeName ty ++ sep :: tail)) from by
            simp [fieldElem, fieldElem]]
        rw [parseFieldList_cons F n0 _ hid0.2.2.2.2]
        simp only [parseFieldListStep]
        rw [parseFlag_ne n0 _ hid0.2.2.2.1]
        try dsimp only
        rw [show n0 :: (nm' ++ ':' :: (getTypeCodeName ty ++ sep :: tail)) =
          (n0 :: nm') ++ ':' :: (getTypeCodeName ty ++ sep :: tail) from rfl]
        rw [takeLabel_append _ _ hlbl]
        show (match parseKey F (getTypeCodeName ty ++ sep :: tail) with
          | some (ft, r3) =>
              match parseTag r3 with
              | some (tg2, ',' :: r4) =>
                  (parseFieldList F r4).map (fun (q : List StructFieldT × Str) =>
                    (StructFieldT.mk false (n0 :: nm') ft tg2 :: q.1, q.2))
              | some (tg2, '\x7d' :: r4) =>
                  some ([StructFieldT.mk false (n0 :: nm') ft tg2], r4)
              | _ => none
          | none => none) = _
        rw [hkey (sep :: tail) hterm]
        rcases hsep with h | h <;> subst h <;> simp [parseTag_other]
    | true =>
        rw [show fieldElem (.mk true (n0 :: nm') ty []) ++ sep :: tail =
          '#' :: ((n0 :: nm') ++ ':' :: (getTypeCodeName ty ++ sep :: tail)) from by
            simp [fieldElem, fieldElem]]
        rw [parseFieldList_cons F '#' _ (by decide)]
        simp only [parseFieldListStep]
        rw [show parseFlag ('#' :: ((n0 :: nm') ++ ':' ::
          (getTypeCodeName ty ++ sep :: tail))) =
          (true, (n0 :: nm') ++ ':' :: (getTypeCodeName ty ++ sep :: tail)) from rfl]
        try dsimp only
        rw [takeLabel_append _ _ hlbl]
        show (match parseKey F (getTypeCodeName ty ++ sep :: tail) with
          | some (ft, r3) =>
              match parseTag r3 with
              | some (tg2, ',' :: r4) =>
                  (parseFieldList F r4).map (fun (q : List StructFieldT × Str) =>
                    (StructFieldT.mk true (n0 :: nm') ft tg2 :: q.1, q.2))
              | some (tg2, '\x7d' :: r4) =>
                  some ([StructFieldT.mk true (n0 :: nm') ft tg2], r4)
              | _ => none
          | none => none) = _
        rw [hkey (sep :: tail) hterm]
        rcases hsep with h | h <;> subst h <;> simp [parseTag_other]
  ·
    cases emb with
    | false =>
        rw [show fieldElem (.mk false (n0 :: nm') ty tg) ++ sep :: tail =
          n0 :: (nm' ++ ':' :: (getTypeCodeName ty ++ '\x60' :: (tg ++ '\x60' :: sep :: tail))) from by
            simp [fieldElem, htg0]]
        rw [parseFieldList_cons F n0 _ hid0.2.2.2.2]
        simp only [parseFieldListStep]
        rw [parseFlag_ne n0 _ hid0.2.2.2.1]
        try dsimp only
        rw [show n0 :: (nm' ++ ':' :: (getTypeCodeName ty ++ '\x60' :: (tg ++ '\x60' :: sep :: tail))) =
          (n0 :: nm') ++ ':' :: (getTypeCodeName ty ++ '\x60' :: (tg ++ '\x60' :: sep :: tail)) from rfl]
        rw [takeLabel_append _ _ hlbl]
        show (match parseKey F (getTypeCodeName ty ++ '\x60' :: (tg ++ '\x60' :: sep :: tail)) with
          | some (ft, r3) =>
              match parseTag r3 with
              | some (tg2, ',' :: r4) =>
                  (parseFieldList F r4).map (fun (q : List StructFieldT × Str) =>
                    (StructFieldT.mk false (n0 :: nm') ft tg2 :: q.1, q.2))
              | some (tg2, '\x7d' :: r4) =>
                  some ([StructFieldT.mk false (n0 :: nm') ft tg2], r4)
              | _ => none
          | none => none) = _
        rw [hkey ('\x60' :: (tg ++ '\x60' :: sep :: tail)) rfl]
        try dsimp only
        rw [show parseTag ('\x60' :: (tg ++ '\x60' :: sep :: tail)) =
          some (tg, sep :: tail) from by
            rw [parseTag_tick, takeTick_append _ _ htick]
            rfl]
        rcases hsep with h | h <;> subst h <;> simp
    | true =>
        rw [show fieldElem (.mk true (n0 :: nm') ty tg) ++ sep :: tail =
          '#' :: ((n0 :: nm') ++ ':' :: (getTypeCodeName ty ++ '\x60' :: (tg ++ '\x60' :: sep :: tail))) from by
            simp [fieldElem, htg0]]
        rw [parseFieldList_cons F '#' _ (by decide)]
        simp only [parseFieldListStep]
        rw [show parseFlag ('#' :: ((n0 :: nm') ++ ':' ::
          (getTypeCodeName ty ++ '\x60' :: (tg ++ '\x60' :: sep :: tail)))) =
          (true, (n0 :: nm') ++ ':' :: (getTypeCodeName ty ++ '\x60' :: (tg ++ '\x60' :: sep :: tail))) from rfl]
        try dsimp only
        rw [takeLabel_append _ _ hlbl]
        show (match parseKey F (getTypeCodeName ty ++ '\x60' :: (tg ++ '\x60' :: sep :: tail)) with
          | some (ft, r3) =>
              match parseTag r3 with
              | some (tg2, ',' :: r4) =>
                  (parseFieldList F r4).map (fun (q : List StructFieldT × Str) =>
                    (StructFieldT.mk true (n0 :: nm') ft tg2 :: q.1, q.2))
              | some (tg2, '\x7d' :: r4) =>
                  some ([StructFieldT.mk true (n0 :: nm') ft tg2], r4)
              | _ => none
          | none => none) = _
        rw [hkey ('\x60' :: (tg ++ '\x60' :: sep :: tail)) rfl]
        try dsimp only
        rw [show parseTag ('\x60' :: (tg ++ '\x60' :: sep :: tail)) =
          some (tg, sep :: tail) from by
            rw [parseTag_tick, takeTick_append _ _ htick]
            rfl]
        rcases hsep with h | h <;> subst h <;> simp
/-- One interface-method element parses back to its canonical form,
consuming up to the following separator. -/
theorem parseMethodList_elem (F : Nat) (n p : Str) (sg : GoType)
    (sep : Char) (tail : Str)
    (hn : wfIdent n = true) (hp : wfPath p = true)
    (hsep : sep = ',' ∨ sep = '\x7d')
    (hkey : ∀ Y : Str, goodTail Y →
      parseKey F (getTypeCodeName sg ++ Y) = some (canonKey sg, Y)) :
    parseMethodList (F + 1) (methodElem (.mk n p sg) ++ sep :: tail) =
      (if sep = ',' then
        (parseMethodList F tail).map fun q =>
          (.mk n (if isExported n then [] else p) (canonKey sg) :: q.1, q.2)
      else some ([.mk n (if isExported n then [] else p) (canonKey sg)], tail)) := by
  rw [wfIdent, Bool.and_eq_true, List.all_eq_true] at hn
  obtain ⟨hne, hall⟩ := hn
  cases n with
  | nil => simp at hne
  | cons n0 nm' =>
  have hterm : goodTail (sep :: tail) := by
    rcases hsep with h | h <;> subst h <;> exact rfl
  have hnodot : ∀ c ∈ n0 :: nm', c ≠ '.' :=
    fun c hc => (identChar_facts c (hall c hc)).2.2.1
  have hlblname : ∀ c ∈ n0 :: nm', c ≠ ':' :=
    fun c hc => (identChar_facts c (hall c hc)).2.1
  by_cases hexp : isExported (n0 :: nm') = true
  · have hmk : mkMethod (n0 :: nm') (canonKey sg) =
        .mk (n0 :: nm') [] (canonKey sg) := by
      unfold mkMethod
      rw [splitLastDot_none _ hnodot]
    rw [show methodElem (.mk (n0 :: nm') p sg) ++ sep :: tail =
      n0 :: (nm' ++ ':' :: (getTypeCodeName sg ++ sep :: tail)) from by
        simp [methodElem, hexp]]
    rw [parseMethodList_cons F n0 _
      (identChar_facts n0 (hall n0 (List.mem_cons_self _ _))).2.2.2.2]
    simp only [parseMethodListStep]
    rw [show n0 :: (nm' ++ ':' :: (getTypeCodeName sg ++ sep :: tail)) =
      (n0 :: nm') ++ ':' :: (getTypeCodeName sg ++ sep :: tail) from rfl]
    rw [takeLabel_append _ _ hlblname]
    show (match parseKey F (getTypeCodeName sg ++ sep :: tail) with
      | some (sg2, ',' :: r3) =>
          (parseMethodList F r3).map (fun (q : List IMethodT × Str) =>
            (mkMethod (n0 :: nm') sg2 :: q.1, q.2))
      | some (sg2, '\x7d' :: r3) => some ([mkMethod (n0 :: nm') sg2], r3)
      | _ => none) = _
    rw [hkey (sep :: tail) hterm]
    rcases hsep with h | h <;> subst h <;> simp [hmk, hexp]
  · have hmk : mkMethod (p ++ '.' :: (n0 :: nm')) (canonKey sg) =
        .mk (n0 :: nm') p (canonKey sg) := by
      unfold mkMethod
      rw [splitLastDot_append _ _ hnodot]
    have hplbl : ∀ c ∈ p ++ '.' :: (n0 :: nm'), c ≠ ':' := by
      intro c hc
      rcases List.mem_append.1 hc with h1 | h2
      · rw [wfPath, List.all_eq_true] at hp
        exact (pathChar_facts c (hp c h1)).2.1
      · rcases List.mem_cons.1 h2 with h3 | h4
        · subst h3; decide
        · exact hlblname c h4
    have hphead : ∃ c0 s0, p ++ '.' :: (n0 :: nm') = c0 :: s0 ∧ c0 ≠ '\x7d' := by
      cases p with
      | nil => exact ⟨'.', n0 :: nm', rfl, by decide⟩
      | cons c0 p' =>
          refine ⟨c0, p' ++ '.' :: (n0 :: nm'), rfl, ?_⟩
          rw [wfPath, List.all_eq_true] at hp
          exact (pathChar_facts c0 (hp c0 (List.mem_cons_self _ _))).2.2
    obtain ⟨c0, s0, hps, hc0⟩ := hphead
    rw [show methodElem (.mk (n0 :: nm') p sg) ++ sep :: tail =
      (p ++ '.' :: (n0 :: nm')) ++ ':' :: (getTypeCodeName sg ++ sep :: tail) from by
        simp [methodElem, hexp]]
    rw [hps, List.cons_append, parseMethodList_cons F c0 _ hc0,
      ← List.cons_append, ← hps]
    simp only [parseMethodListStep]
    rw [takeLabel_append _ _ hplbl]
    show (match parseKey F (getTypeCodeName sg ++ sep :: tail) with
      | some (sg2, ',' :: r3) =>
          (parseMethodList F r3).map (fun (q : List IMethodT × Str) =>
            (mkMethod (p ++ '.' :: (n0 :: nm')) sg2 :: q.1, q.2))
      | some (sg2, '\x7d' :: r3) =>
          some ([mkMethod (p ++ '.' :: (n0 :: nm')) sg2], r3)
      | _ => none) = _
    rw [hkey (sep :: tail) hterm]
    rcases hsep with h | h <;> subst h <;> simp [hmk, hexp]

/-- Running the parser on the TypeKey of a well-formed type recovers
exactly its canonical representative, leaving any legal tail
unconsumed; the three list parsers likewise invert the three join
loops.  This is unique readability of the encoding. -/
theorem parseRoundtrip : ∀ F : Nat,
    (∀ (t : GoType) (rest : Str), sizeOf t < F → wfb t = true → goodTail rest →
      parseKey F (getTypeCodeName t ++ rest) = some (canonKey t, rest)) ∧
    (∀ (ts : List GoType) (rest : Str), sizeOf ts < F → wfbs ts = true →
      parseKeyList F (joinKeys ts ++ '\x7d' :: rest) = some (canonKeys ts, rest)) ∧
    (∀ (fs : List StructFieldT) (rest : Str), sizeOf fs < F → wfFields fs = true →
      parseFieldList F (joinFieldElems fs ++ '\x7d' :: rest) =
        some (canonFields fs, rest)) ∧
    (∀ (ms : List IMethodT) (rest : Str), sizeOf ms < F → wfMethods ms = true →
      parseMethodList F (joinMethodElems ms ++ '\x7d' :: rest) =
        some (canonMethods ms, rest)) := by
  intro F
  induction F with
  | zero =>
      refine ⟨?_, ?_, ?_, ?_⟩ <;> (intro x rest h; omega)
  | succ F ih =>
      obtain ⟨ihT, ihL, ihF, ihM⟩ := ih
      refine ⟨?_, ?_, ?_, ?_⟩
      · intro t rest hsz hwf htail
        cases t with
        | basic b =>
            rw [show getTypeCodeName (.basic b) ++ rest =
              str "basic:" ++ (basicTypeNames b ++ rest) from by
                simp [getTypeCodeName]]
            rw [parseKey_basic, takeName_append _ _ (basicTypeNames_term b) htail]
            simp [charsToBasic_names b]
            rfl
        | named n =>
            simp only [wfb, wfPathNE, Bool.and_eq_true, List.all_eq_true] at hwf
            rw [show getTypeCodeName (.named n) ++ rest =
              str "named:" ++ (n ++ rest) from by simp [getTypeCodeName]]
            rw [parseKey_named, takeName_append n rest
              (fun c hc => (pathChar_facts c (hwf.2 c hc)).1) htail]
            rfl
        | chan d e =>
            simp only [wfb] at hwf
            rw [show getTypeCodeName (.chan d e) ++ rest =
              str "chan:" ++ (getTypeCodeName e ++ rest) from by
                simp [getTypeCodeName]]
            rw [parseKey_chan, ihT e rest (by simp at hsz; omega) hwf htail]
            rfl
        | slice e =>
            simp only [wfb] at hwf
            rw [show getTypeCodeName (.slice e) ++ rest =
              str "slice:" ++ (getTypeCodeName e ++ rest) from by
                simp [getTypeCodeName]]
            rw [parseKey_slice, ihT e rest (by simp at hsz; omega) hwf htail]
            rfl
        | pointer e =>
            simp only [wfb] at hwf
            rw [show getTypeCodeName (.pointer e) ++ rest =
              str "pointer:" ++ (getTypeCodeName e ++ rest) from by
                simp [getTypeCodeName]]
            rw [parseKey_pointer, ihT e rest (by simp at hsz; omega) hwf htail]
            rfl
        | array n e =>
            simp only [wfb] at hwf
            rw [show getTypeCodeName (.array n e) ++ rest =
              str "array:" ++ (natToChars n ++ ':' ::
                (getTypeCodeName e ++ rest)) from by simp [getTypeCodeName]]
            rw [parseKey_array, takeLabel_append _ _ (natToChars_ne_colon n)]
            show (parseKey F (getTypeCodeName e ++ rest)).map
              (fun (q : GoType × Str) =>
                (GoType.array (charsToNat (natToChars n)) q.1, q.2)) = _
            rw [ihT e rest (by simp at hsz; omega) hwf htail,
              charsToNat_natToChars]
            rfl
        | mapT k v =>
            simp only [wfb, Bool.and_eq_true] at hwf
            rw [show getTypeCodeName (.mapT k v) ++ rest =
              str "map:" ++ '\x7b' :: (getTypeCodeName k ++
                ',' :: (getTypeCodeName v ++ '\x7d' :: rest)) from by
                simp [getTypeCodeName]]
            rw [parseKey_map, ihT k
              (',' :: (getTypeCodeName v ++ '\x7d' :: rest))
              (by simp at hsz; omega) hwf.1 rfl]
            show (match parseKey F (getTypeCodeName v ++ '\x7d' :: rest) with
              | some (v2, '\x7d' :: r3) => some (GoType.mapT (canonKey k) v2, r3)
              | _ => none) = _
            rw [ihT v ('\x7d' :: rest) (by simp at hsz; omega) hwf.2 rfl]
            rfl
        | signature ps rs =>
            simp only [wfb, Bool.and_eq_true] at hwf
            rw [show getTypeCodeName (.signature ps rs) ++ rest =
              str "func:" ++ '\x7b' :: (joinKeys ps ++
                '\x7d' :: ('\x7b' :: (joinKeys rs ++ '\x7d' :: rest))) from by
                simp [getTypeCodeName]]
            rw [parseKey_func, ihL ps _ (by simp at hsz; omega) hwf.1]
            show (parseKeyList F (joinKeys rs ++ '\x7d' :: rest)).map
              (fun (q : List GoType × Str) =>
                (GoType.signature (canonKeys ps) q.1, q.2)) = _
            rw [ihL rs _ (by simp at hsz; omega) hwf.2]
            rfl
        | structT fs =>
            simp only [wfb] at hwf
            rw [show getTypeCodeName (.structT fs) ++ rest =
              str "struct:" ++ '\x7b' :: (joinFieldElems fs ++ '\x7d' :: rest)
              from by simp [getTypeCodeName]]
            rw [parseKey_struct, ihF fs rest (by simp at hsz; omega) hwf]
            rfl
        | interfaceT ms =>
            simp only [wfb] at hwf
            rw [show getTypeCodeName (.interfaceT ms) ++ rest =
              str "interface:" ++ '\x7b' :: (joinMethodElems ms ++ '\x7d' :: rest)
              from by simp [getTypeCodeName]]
            rw [parseKey_interface, ihM ms rest (by simp at hsz; omega) hwf]
            rfl
      · intro ts rest hsz hwf
        cases ts with
        | nil => exact parseKeyList_nil F rest
        | cons t ts =>
            obtain ⟨c, s', hk, hc⟩ := key_head t
            cases ts with
            | nil =>
                simp only [wfbs, Bool.and_true] at hwf
                rw [show joinKeys [t] = getTypeCodeName t from rfl, hk,
                  List.cons_append, parseKeyList_cons F c _ hc,
                  ← List.cons_append, ← hk]
                simp only [parseKeyListStep]
                rw [ihT t ('\x7d' :: rest) (by simp at hsz; omega) (by
                  simpa using hwf) rfl]
                rfl
            | cons t2 ts2 =>
                simp only [wfbs, Bool.and_eq_true] at hwf
                rw [show joinKeys (t :: t2 :: ts2) ++ '\x7d' :: rest =
                  getTypeCodeName t ++
                    (',' :: (joinKeys (t2 :: ts2) ++ '\x7d' :: rest)) from by
                    simp [joinKeys]]
                rw [hk, List.cons_append, parseKeyList_cons F c _ hc,
                  ← List.cons_append, ← hk]
                simp only [parseKeyListStep]
                rw [ihT t (',' :: (joinKeys (t2 :: ts2) ++ '\x7d' :: rest))
                  (by simp at hsz; omega) hwf.1 rfl]
                show (parseKeyList F (joinKeys (t2 :: ts2) ++ '\x7d' :: rest)).map
                  (fun (q : List GoType × Str) => (canonKey t :: q.1, q.2)) = _
                rw [ihL (t2 :: ts2) rest (by simp at hsz ⊢; omega) (by
                  simp only [wfbs, Bool.and_eq_true]
                  exact hwf.2)]
                rfl
      · intro fs rest hsz hwf
        cases fs with
        | nil => exact parseFieldList_nil F rest
        | cons f fs =>
            cases f with
            | mk emb nm ty0 tg =>
            cases fs with
            | nil =>
                simp only [wfFields, Bool.and_eq_true, Bool.and_true] at hwf
                obtain ⟨⟨hnm, htg⟩, hty⟩ := hwf
                rw [show joinFieldElems [StructFieldT.mk emb nm ty0 tg] ++
                  '\x7d' :: rest =
                  fieldElem (.mk emb nm ty0 tg) ++ '\x7d' :: rest from rfl]
                rw [parseFieldList_elem F emb nm tg ty0 '\x7d' rest hnm htg
                  (Or.inr rfl)
                  (fun Y hY => ihT ty0 Y (by simp at hsz; omega) hty hY)]
                rw [if_neg (by decide)]
                rfl
            | cons f2 fs2 =>
                simp only [wfFields, Bool.and_eq_true] at hwf
                obtain ⟨⟨⟨hnm, htg⟩, hty⟩, hrest⟩ := hwf
                rw [show joinFieldElems (StructFieldT.mk emb nm ty0 tg :: f2 :: fs2)
                  ++ '\x7d' :: rest =
                  fieldElem (.mk emb nm ty0 tg) ++
                    ',' :: (joinFieldElems (f2 :: fs2) ++ '\x7d' :: rest) from by
                    simp [joinFieldElems]]
                rw [parseFieldList_elem F emb nm tg ty0 ','
                  (joinFieldElems (f2 :: fs2) ++ '\x7d' :: rest) hnm htg
                  (Or.inl rfl)
                  (fun Y hY => ihT ty0 Y (by simp at hsz; omega) hty hY)]
                rw [if_pos rfl]
                rw [ihF (f2 :: fs2) rest (by simp at hsz ⊢; omega) hrest]
                rfl
      · intro ms rest hsz hwf
        cases ms with
        | nil => exact parseMethodList_nil F rest
        | cons m ms =>
            cases m with
            | mk n0 p0 sg =>
            cases ms with
            | nil =>
                simp only [wfMethods, Bool.and_eq_true, Bool.and_true] at hwf
                obtain ⟨⟨hn, hp⟩, hsg⟩ := hwf
                rw [show joinMethodElems [IMethodT.mk n0 p0 sg] ++ '\x7d' :: rest =
                  methodElem (.mk n0 p0 sg) ++ '\x7d' :: rest from rfl]
                rw [parseMethodList_elem F n0 p0 sg '\x7d' rest hn hp
                  (Or.inr rfl)
                  (fun Y hY => ihT sg Y (by simp at hsz; omega) hsg hY)]
                rw [if_neg (by decide)]
                rfl
            | cons m2 ms2 =>
                simp only [wfMethods, Bool.and_eq_true] at hwf
                obtain ⟨⟨⟨hn, hp⟩, hsg⟩, hrest⟩ := hwf
                rw [show joinMethodElems (IMethodT.mk n0 p0 sg :: m2 :: ms2)
                  ++ '\x7d' :: rest =
                  methodElem (.mk n0 p0 sg) ++
                    ',' :: (joinMethodElems (m2 :: ms2) ++ '\x7d' :: rest) from by
                    simp [joinMethodElems]]
                rw [parseMethodList_elem F n0 p0 sg ','
                  (joinMethodElems (m2 :: ms2) ++ '\x7d' :: rest) hn hp
                  (Or.inl rfl)
                  (fun Y hY => ihT sg Y (by simp at hsz; omega) hsg hY)]
                rw [if_pos rfl]
                rw [ihM (m2 :: ms2) rest (by simp at hsz ⊢; omega) hrest]
                rfl

/-- C5 (counterexample): the TypeKey is not injective on source types.
A send-only and a receive-only channel of the same element are distinct
types with identical keys (the encoding drops the direction), and a
struct whose tag contains backquote characters collides with a
two-field struct (the tag delimiters are not escaped). -/
theorem getTypeCodeName_not_injective :
    ((GoType.chan .sendOnly (.basic .int) ≠ GoType.chan .recvOnly (.basic .int)) ∧
      getTypeCodeName (GoType.chan .sendOnly (.basic .int)) =
        getTypeCodeName (GoType.chan .recvOnly (.basic .int))) ∧
    ((GoType.structT [.mk false (str "A") (.basic .int) (str "x"),
        .mk false (str "B") (.basic .int) (str "y")] ≠
      GoType.structT [.mk false (str "A") (.basic .int)
        (str "x\x60,B:basic:int\x60y")]) ∧
      getTypeCodeName (GoType.structT
          [.mk false (str "A") (.basic .int) (str "x"),
           .mk false (str "B") (.basic .int) (str "y")]) =
        getTypeCodeName (GoType.structT [.mk false (str "A") (.basic .int)
          (str "x\x60,B:basic:int\x60y")])) := by
  refine ⟨⟨?_, rfl⟩, ?_, rfl⟩
  · intro h
    injection h with h1 h2
    exact absurd h1 (by decide)
  · intro h
    injection h with h1
    injection h1 with h2 h3
    exact List.noConfusion h3

/-- C5 (corrected): on well-formed types (well-formed identifiers and
paths, backquote-free tags) two TypeKeys are equal exactly when the
types agree up to what the encoding provably drops: channel direction
and the package path of exported interface methods. -/
theorem getTypeCodeName_inj_canon (t1 t2 : GoType)
    (h1 : wfb t1 = true) (h2 : wfb t2 = true) :
    getTypeCodeName t1 = getTypeCodeName t2 ↔ canonKey t1 = canonKey t2 := by
  constructor
  · intro heq
    have r1 := (parseRoundtrip (sizeOf t1 + sizeOf t2 + 1)).1 t1 []
      (by omega) h1 trivial
    have r2 := (parseRoundtrip (sizeOf t1 + sizeOf t2 + 1)).1 t2 []
      (by omega) h2 trivial
    rw [List.append_nil] at r1 r2
    rw [heq, r2] at r1
    injection r1 with h3
    exact (congrArg Prod.fst h3).symm
  · intro hc
    rw [← key_canon t1, ← key_canon t2, hc]

/-- Witness for C5: the two channel types of the counterexample are
well formed, and the corrected equivalence holds for them concretely. -/
theorem getTypeCodeName_inj_canon_witness :
    wfb (GoType.chan .sendOnly (.basic .int)) = true ∧
    wfb (GoType.chan .recvOnly (.basic .int)) = true ∧
    (getTypeCodeName (GoType.chan .sendOnly (.basic .int)) =
        getTypeCodeName (GoType.chan .recvOnly (.basic .int)) ↔
      canonKey (GoType.chan .sendOnly (.basic .int)) =
        canonKey (GoType.chan .recvOnly (.basic .int))) :=
  ⟨rfl, rfl, getTypeCodeName_inj_canon _ _ rfl rfl⟩

/-- The decoded view of one struct field, as `rawField` of
src/reflect/type.go returns it (the descriptor-pointer and offset fields
are outside the data blob and not modelled here). -/
structure RawFieldM where
  name : List Nat
  pkgPath : List Nat
  tag : List Nat
  anonymous : Bool
deriving DecidableEq, Repr

/-- readUntilZero models the `for *(*byte)(data) != 0` scan of `rawField`:
the bytes before the first NUL, together with the rest of the input
starting at that NUL.  Running off the end of the buffer (no NUL found,
which `rawField` would answer with an out-of-bounds read) is `none`. -/
def readUntilZero : List Nat → Option (List Nat × List Nat)
  | [] => none
  | b :: rest =>
      if b = 0 then some ([], b :: rest)
      else (readUntilZero rest).map fun p => (b :: p.1, p.2)

/-- rawFieldDecode is the data-blob part of `rawField` of
src/reflect/type.go: read the flags byte, scan the name up to a NUL, skip
that NUL and scan the tag when flag bit 1 is set, report `<unimplemented>`
as the package path when flag bit 2 is clear, and report flag bit 0 as the
anonymous flag. -/
def rawFieldDecode (data : List Nat) : Option RawFieldM :=
  match data with
  | [] => none
  | flagsByte :: rest =>
    match readUntilZero rest with
    | none => none
    | some (name, rest1) =>
      let tagRes : Option (List Nat) :=
        if flagsByte &&& 2 ≠ 0 then
          match readUntilZero (rest1.drop 1) with
          | none => none
          | some (tag, _) => some tag
        else some []
      match tagRes with
      | none => none
      | some tag =>
          some { name := name
                 pkgPath := if flagsByte &&& 4 = 0 then strBytes "<unimplemented>" else []
                 tag := tag
                 anonymous := flagsByte &&& 1 ≠ 0 }

/-- Scanning up to a NUL recovers exactly an appended NUL-free prefix. -/
theorem readUntilZero_append (l r : List Nat) (h : ∀ x ∈ l, x ≠ 0) :
    readUntilZero (l ++ 0 :: r) = some (l, 0 :: r) := by
  induction l with
  | nil => simp [readUntilZero]
  | cons b bs ih =>
      have hb : b ≠ 0 := h b (by simp)
      simp [readUntilZero, hb, ih (fun x hx => h x (by simp [hx]))]

/-- C10: the compiler's struct-field blob and the runtime field decoder
form a round trip.  For every field whose name and tag contain no NUL
byte, decoding the emitted NUL-terminated blob recovers the original
name, the original tag (empty when there was none), and the original
anonymous flag (and the placeholder package path exactly when the field
is unexported). -/
theorem rawFieldDecode_structFieldBlob (a e : Bool) (name tag : List Nat)
    (hn : ∀ x ∈ name, x ≠ 0) (ht : ∀ x ∈ tag, x ≠ 0) :
    rawFieldDecode (structFieldBlob a e name tag) =
      some { name := name
             pkgPath := if e then [] else strBytes "<unimplemented>"
             tag := tag
             anonymous := a } := by
  have h1 := structFieldFlags_and_one a e tag
  have h2 := structFieldFlags_and_two a e tag
  have h4 := structFieldFlags_and_four a e tag
  by_cases htag : tag = []
  · subst htag
    have hblob : structFieldBlob a e name [] =
        structFieldFlags a e [] :: (name ++ 0 :: []) := by
      simp [structFieldBlob, structFieldData]
    rw [hblob]
    simp only [rawFieldDecode, readUntilZero_append name [] hn]
    rw [show ((0 : Nat) :: [] ).drop 1 = [] from rfl] at *
    simp [h2, h1, h4]
    cases a <;> cases e <;> simp_all
  · have hblob : structFieldBlob a e name tag =
        structFieldFlags a e tag :: (name ++ 0 :: (tag ++ 0 :: [])) := by
      simp [structFieldBlob, structFieldData, htag]
    rw [hblob]
    simp only [rawFieldDecode, readUntilZero_append name _ hn]
    simp [h2, h1, h4, htag, readUntilZero_append tag _ ht]
    cases a <;> cases e <;> simp_all

/-- Witness for C10 at a concrete field: anonymous `false`, exported
`true`, name `"X"` (byte 88), tag `"y"` (byte 121). -/
theorem rawFieldDecode_structFieldBlob_witness :
    (∀ x ∈ [88], x ≠ 0) ∧ (∀ x ∈ [121], x ≠ 0) ∧
      rawFieldDecode (structFieldBlob false true [88] [121]) =
        some { name := [88], pkgPath := [], tag := [121], anonymous := false } :=
  ⟨by decide, by decide,
    rawFieldDecode_structFieldBlob false true [88] [121] (by decide) (by decide)⟩

end TinyGo
